import Mathlib

/-!
# Verification of the MyAgent structural-role / numbered-list engine

A shallow embedding, in Lean 4, of the parts of the `MyAgent` document
formatter that the verified properties concern:

* `core/numbering.py` — text list-marker detection, the numbering store,
  numbering-definition allocation, `numPr` binding and prefix stripping,
  and the grouping/conversion pass `convert_text_lists`;
* `core/formatter.py` — the rule-based role classifier `detect_role` and
  the soft-line-break splitter `_split_body_paragraphs_on_linebreaks`;
* `agent/mode_router.py` — hybrid triggers and the hybrid reconciliation;
* `core/judge.py` — `rule_based_labels`;
* `core/docx_utils.py` — the document-flow paragraph traversal.

Strings are modelled as `List Char` (Python strings are sequences of code
points).  Python's regular expressions are unrolled into explicit
character-list matchers; each matcher's doc comment names the pattern it
translates.  Fallible XML access is modelled with `Option`.
-/

namespace MyAgent

/-! ## Python character classes and string helpers -/

/-- Python's Unicode whitespace class (`\s` of `re`, `str.isspace`,
`str.strip`): the characters Python treats as whitespace. -/
def isSpacePy (c : Char) : Bool :=
  c = ' ' || c = '\t' || c = '\n' || c = '\r' || c = '\x0b' || c = '\x0c' ||
  c = '\x1c' || c = '\x1d' || c = '\x1e' || c = '\x1f' || c = '\x85' ||
  c = '\xa0' || c = ' ' ||
  (0x2000 ≤ c.toNat && c.toNat ≤ 0x200a) ||
  c = ' ' || c = ' ' || c = ' ' || c = ' ' || c = '　'

/-- ASCII whitespace: what `\s` matches under `re.ASCII`. -/
def isSpaceAscii (c : Char) : Bool :=
  c = ' ' || c = '\t' || c = '\n' || c = '\r' || c = '\x0b' || c = '\x0c'

/-- ASCII lower-casing, as Python `str.lower` acts on the characters this
program compares (ASCII letters; CJK characters are fixed points). -/
def lowerPy (c : Char) : Char :=
  if 'A' ≤ c && c ≤ 'Z' then Char.ofNat (c.toNat + 32) else c

/-- Lower-case a whole string. -/
def lowerStr (s : List Char) : List Char := s.map lowerPy

/-- Python `str.strip()`: remove leading and trailing whitespace. -/
def stripPy (s : List Char) : List Char :=
  ((s.dropWhile isSpacePy).reverse.dropWhile isSpacePy).reverse

/-- Python `str.lstrip()`: remove leading whitespace. -/
def lstripPy (s : List Char) : List Char := s.dropWhile isSpacePy

/-- Does `s` start with `pre`? (Python `str.startswith`.) -/
def hasPre : List Char → List Char → Bool
  | [], _ => true
  | _ :: _, [] => false
  | p :: ps, c :: cs => p = c && hasPre ps cs

/-- Case-insensitive `hasPre` (ASCII case folding, as `re.IGNORECASE` acts
on the patterns this program uses). -/
def hasPreCI (pre s : List Char) : Bool := hasPre (lowerStr pre) (lowerStr s)

/-- `needle in haystack` for Python strings: substring containment. -/
def containsSub (haystack needle : List Char) : Bool :=
  match haystack with
  | [] => needle.isEmpty
  | _ :: rest => hasPre needle haystack || containsSub rest needle

/-- Greedy `\s*` (Unicode): split off the leading whitespace. -/
def takeSpaces (s : List Char) : List Char × List Char :=
  (s.takeWhile isSpacePy, s.dropWhile isSpacePy)

/-- Greedy `\s*` under `re.ASCII`. -/
def takeSpacesAscii (s : List Char) : List Char × List Char :=
  (s.takeWhile isSpaceAscii, s.dropWhile isSpaceAscii)

/-- Greedy `\d+` (the decimal digits this program feeds to `int`):
split off the leading run of ASCII digits. -/
def takeDigits (s : List Char) : List Char × List Char :=
  (s.takeWhile Char.isDigit, s.dropWhile Char.isDigit)

/-- `int` on a string of ASCII decimal digits. -/
def digitsVal (ds : List Char) : Nat :=
  ds.foldl (fun acc c => acc * 10 + (c.toNat - '0'.toNat)) 0

/-- Convenience: the code points of a string literal. -/
def cs (s : String) : List Char := s.data

/-! ## Data model

A paragraph handle, as the engine reads and mutates it: its ordered runs
(`w:r` children; a run's visual character style is abstracted into an
opaque `styleId` token, which is all `copy_run_style` transports), the
paragraph style name, the children of its `w:pPr` element, and the
identity of its parent container (table cell or document body).  An
absent `w:pPr` is modelled as the empty child list, matching
`get_or_add_pPr` which creates an empty one on demand. -/

/-- A text run (`w:r`): text plus an opaque visual-style token. -/
structure Run where
  text : List Char
  styleId : Nat := 0
deriving DecidableEq

/-- A child of a paragraph's `w:pPr`: either a `w:numPr` numbering binding
(with its `w:ilvl` and `w:numId` values) or some other property element. -/
inductive PElem where
  | numPr (ilvl : Nat) (numId : Int)
  | other (tag : String)
deriving DecidableEq

/-- A paragraph handle. -/
structure Para where
  runs : List Run
  styleName : List Char
  pPr : List PElem := []
  container : Nat := 0
deriving DecidableEq

/-- `paragraph.text`: the concatenation of the run texts. -/
def Para.text (p : Para) : List Char := (p.runs.map Run.text).flatten

/-- Is this `w:pPr` child a `w:numPr`? -/
def PElem.isNumPr : PElem → Bool
  | .numPr _ _ => true
  | .other _ => false

/-! ## core/numbering.py — list pattern detection

Each matcher translates one module-level compiled pattern.  A match
returns the captured ordinal together with `m.end()`, the number of code
points consumed. -/

/-- `_RE_PAREN_ARABIC = ^(\s*（)(\d+)(）)` — e.g. `（1）`. -/
def matchParenArabic (t : List Char) : Option (Nat × Nat) :=
  let (sp, r1) := takeSpaces t
  match r1 with
  | '（' :: r2 =>
    let (ds, r3) := takeDigits r2
    if ds.isEmpty then none
    else
      match r3 with
      | '）' :: _ => some (digitsVal ds, sp.length + 1 + ds.length + 1)
      | _ => none
  | _ => none

/-- `_RE_RPAREN = ^(\s*)(\d+)([)）])(\s?)` — e.g. `1)` or `1）`, with an
optional single trailing whitespace character included in the match. -/
def matchRparen (t : List Char) : Option (Nat × Nat) :=
  let (sp, r1) := takeSpaces t
  let (ds, r2) := takeDigits r1
  if ds.isEmpty then none
  else
    match r2 with
    | c :: r3 =>
      if c = ')' || c = '）' then
        let tail := if h : r3 ≠ [] then (if isSpacePy (r3.head h) then 1 else 0) else 0
        some (digitsVal ds, sp.length + ds.length + 1 + tail)
      else none
    | [] => none

/-- `_RE_NUM_DOT = ^(\s*)(\d+)(\. )` — e.g. `1. text` (a literal dot then a
literal space). -/
def matchNumDot (t : List Char) : Option (Nat × Nat) :=
  let (sp, r1) := takeSpaces t
  let (ds, r2) := takeDigits r1
  if ds.isEmpty then none
  else
    match r2 with
    | '.' :: ' ' :: _ => some (digitsVal ds, sp.length + ds.length + 2)
    | _ => none

/-- Is `c` one of the circled-digit glyphs `①`…`⑳` (U+2460–U+2473)? -/
def isEnclosedDigit (c : Char) : Bool :=
  0x2460 ≤ c.toNat && c.toNat ≤ 0x2473

/-- `_ENCLOSED_ORD.get(ch, 1)`: ordinal of a circled-digit glyph. -/
def enclosedOrd (c : Char) : Nat :=
  if isEnclosedDigit c then c.toNat - 0x2460 + 1 else 1

/-- `_RE_ENCLOSED = ^\s*([①…⑳])`. -/
def matchEnclosed (t : List Char) : Option (Nat × Nat) :=
  let (sp, r1) := takeSpaces t
  match r1 with
  | c :: _ => if isEnclosedDigit c then some (enclosedOrd c, sp.length + 1) else none
  | [] => none

/-- `_RE_ALPHA_LOWER = ^\s*([a-z])[.)]\s` under `re.ASCII`. -/
def matchAlphaLower (t : List Char) : Option (Nat × Nat) :=
  let (sp, r1) := takeSpacesAscii t
  match r1 with
  | c :: d :: e :: _ =>
    if ('a' ≤ c && c ≤ 'z') && (d = '.' || d = ')') && isSpaceAscii e then
      some (c.toNat - 'a'.toNat + 1, sp.length + 3)
    else none
  | _ => none

/-- `_RE_ALPHA_UPPER = ^\s*([A-Z])[.)]\s` under `re.ASCII`. -/
def matchAlphaUpper (t : List Char) : Option (Nat × Nat) :=
  let (sp, r1) := takeSpacesAscii t
  match r1 with
  | c :: d :: e :: _ =>
    if ('A' ≤ c && c ≤ 'Z') && (d = '.' || d = ')') && isSpaceAscii e then
      some (c.toNat - 'A'.toNat + 1, sp.length + 3)
    else none
  | _ => none

/-- `detect_text_list_prefix(text)`: try the six marker families in the
source's fixed order; return `(fmt, ordinal, prefix_char_count)`. -/
def detect_text_list_prefix (t : List Char) : Option (String × Nat × Nat) :=
  match matchParenArabic t with
  | some (o, e) => some ("paren_arabic", o, e)
  | none =>
  match matchRparen t with
  | some (o, e) => some ("rparen", o, e)
  | none =>
  match matchNumDot t with
  | some (o, e) => some ("num_dot", o, e)
  | none =>
  match matchEnclosed t with
  | some (o, e) => some ("enclosed", o, e)
  | none =>
  match matchAlphaLower t with
  | some (o, e) => some ("alpha_lower", o, e)
  | none =>
  match matchAlphaUpper t with
  | some (o, e) => some ("alpha_upper", o, e)
  | none => none

/-! ## core/numbering.py — the numbering store

A child of the `w:numbering` root element.  `absId` and `numIdAttr` model
the `w:abstractNumId` / `w:numId` *attributes* that `_next_free_id` scans
(`w:abstractNum` carries the former, `w:num` the latter).  For the
definitions this engine builds we also record the fields the claims
observe: the single level's `w:start` value and the format key; the
purely visual payload of `_build_abstractNum` (indents, fonts, size,
weight) is not modelled.  `refAbs` is the `w:num` element's
`w:abstractNumId` *child element* value, which `_next_free_id` does not
scan.  A document with no numbering part is the empty list
(`_numbering_element` auto-creates a minimal empty part). -/
structure NumChild where
  tag : String
  absId : Option Int := none
  numIdAttr : Option Int := none
  fmt : Option String := none
  start : Option Nat := none
  refAbs : Option Int := none
deriving DecidableEq

/-- The integer ids a child contributes to `_next_free_id`'s scan: its
`w:abstractNumId` and `w:numId` attribute values. -/
def NumChild.ids (c : NumChild) : List Int :=
  c.absId.toList ++ c.numIdAttr.toList

/-- All ids present in the numbering store, in both attribute spaces. -/
def allIds (nelem : List NumChild) : List Int :=
  (nelem.map NumChild.ids).flatten

/-- `_next_free_id(nelem)`: `max(used, default=0) + 1` over both id
attribute spaces. -/
def _next_free_id (nelem : List NumChild) : Int :=
  match allIds nelem with
  | [] => 0 + 1
  | x :: xs => xs.foldl max x + 1

/-- `_build_abstractNum(abs_id, fmt, …, start_ordinal)`: the `w:start`
value is clamped to `max(1, start_ordinal)`. -/
def _build_abstractNum (absId : Int) (fmt : String) (startOrdinal : Nat) : NumChild :=
  { tag := "w:abstractNum", absId := some absId, fmt := some fmt,
    start := some (max 1 startOrdinal) }

/-- `_build_num(num_id, abs_id)`. -/
def _build_num (numId absId : Int) : NumChild :=
  { tag := "w:num", numIdAttr := some numId, refAbs := some absId }

/-- `_insert_before_first_num(nelem, new_abstractNum)`. -/
def _insert_before_first_num (nelem : List NumChild) (a : NumChild) : List NumChild :=
  match nelem with
  | [] => [a]
  | c :: rest =>
    if c.tag = "w:num" then a :: c :: rest
    else c :: _insert_before_first_num rest a

/-- `create_list_num_id(doc, fmt, …, start_ordinal)`: allocate the next
free id, insert the abstract definition before the first `w:num`, append
the concrete `w:num`, and return the id with the updated store. -/
def create_list_num_id (nelem : List NumChild) (fmt : String) (startOrdinal : Nat) :
    Int × List NumChild :=
  let newId := _next_free_id nelem
  let withAbs := _insert_before_first_num nelem (_build_abstractNum newId fmt startOrdinal)
  (newId, withAbs ++ [_build_num newId newId])

/-! ## core/numbering.py — binding and stripping -/

/-- Remove the first `w:numPr` child, as `pPr.remove(pPr.find(w:numPr))`
does when one exists. -/
def removeFirstNumPr : List PElem → List PElem
  | [] => []
  | e :: rest => if e.isNumPr then rest else e :: removeFirstNumPr rest

/-- `apply_numpr(paragraph, num_id, ilvl=0)`: drop any existing `w:numPr`
(only the first is found and removed) and append a fresh one. -/
def apply_numpr (p : Para) (numId : Int) (ilvl : Nat := 0) : Para :=
  { p with pPr := removeFirstNumPr p.pPr ++ [PElem.numPr ilvl numId] }

/-- The prefix-removal loop of `strip_list_text_prefix`: distribute the
removal of `remaining` leading code points across the runs. -/
def stripRunsAux : List Run → Nat → List Run
  | [], _ => []
  | r :: rest, remaining =>
    if remaining = 0 then r :: rest
    else if r.text.length ≤ remaining then
      { r with text := [] } :: stripRunsAux rest (remaining - r.text.length)
    else
      { r with text := r.text.drop remaining } :: rest

/-- The trailing loop of `strip_list_text_prefix`: `lstrip` the first
non-empty run, then stop. -/
def lstripFirstRun : List Run → List Run
  | [] => []
  | r :: rest =>
    if r.text.isEmpty then r :: lstripFirstRun rest
    else { r with text := lstripPy r.text } :: rest

/-- `strip_list_text_prefix(paragraph, prefix_char_count)`. -/
def strip_list_text_prefix (p : Para) (prefixCharCount : Nat) : Para :=
  { p with runs := lstripFirstRun (stripRunsAux p.runs prefixCharCount) }

/-! ## core/formatter.py — text-pattern rules -/

/-- The Chinese numerals of `RE_SUBTITLE_CN` / `RE_CAPTION`. -/
def isCnNumeral (c : Char) : Bool :=
  c = '一' || c = '二' || c = '三' || c = '四' || c = '五' ||
  c = '六' || c = '七' || c = '八' || c = '九' || c = '十'

/-- The extended numeral class of `RE_CN_ENUM` (adds 百千万). -/
def isCnEnumChar (c : Char) : Bool :=
  isCnNumeral c || c = '百' || c = '千' || c = '万'

/-- `RE_SUBTITLE_CN = ^\s*（[一二三四五六七八九十]+）` — `（一）`-style. -/
def reSubtitleCN (t : List Char) : Bool :=
  match t.dropWhile isSpacePy with
  | '（' :: r =>
    !(r.takeWhile isCnNumeral).isEmpty &&
      (match r.dropWhile isCnNumeral with
       | '）' :: _ => true
       | _ => false)
  | _ => false

/-- `RE_CN_ENUM = ^\s*[一二三四五六七八九十百千万]+、`. -/
def reCnEnum (t : List Char) : Bool :=
  let r := t.dropWhile isSpacePy
  !(r.takeWhile isCnEnumChar).isEmpty &&
    (match r.dropWhile isCnEnumChar with
     | '、' :: _ => true
     | _ => false)

/-- `RE_CAPTION = ^\s*(图|表|Figure|Fig\.|Table)\s*[\d一二三四五六七八九十]+…`,
case-insensitive (the optional dash group cannot affect whether a match
exists). -/
def reCaption (t : List Char) : Bool :=
  let r := t.dropWhile isSpacePy
  let alt := fun (a : List Char) =>
    hasPreCI a r &&
      (match (r.drop a.length).dropWhile isSpacePy with
       | c :: _ => c.isDigit || isCnNumeral c
       | [] => false)
  alt (cs "图") || alt (cs "表") || alt (cs "Figure") || alt (cs "Fig.") || alt (cs "Table")

/-- `RE_ABSTRACT = ^\s*(摘要|abstract)\s*[:：]?\s*`, case-insensitive; the
tail is entirely optional, so a match is exactly an alternative at the
front. -/
def reAbstract (t : List Char) : Bool :=
  let r := t.dropWhile isSpacePy
  hasPre (cs "摘要") r || hasPreCI (cs "abstract") r

/-- `RE_KEYWORD = ^\s*(关键词|关键字|keywords?)\s*[:：]?\s*`, case-insensitive. -/
def reKeyword (t : List Char) : Bool :=
  let r := t.dropWhile isSpacePy
  hasPre (cs "关键词") r || hasPre (cs "关键字") r || hasPreCI (cs "keyword") r

/-- `RE_REFERENCE = ^\s*(参考文献|references?|bibliography)\s*$`,
case-insensitive: an alternative followed only by whitespace. -/
def reReference (t : List Char) : Bool :=
  let r := t.dropWhile isSpacePy
  let alt := fun (a : List Char) => hasPreCI a r && (r.drop a.length).all isSpacePy
  alt (cs "参考文献") || alt (cs "references") || alt (cs "reference") || alt (cs "bibliography")

/-- Up to `k` greedy repetitions of `(\.\d+)`. -/
def dotDigitReps : Nat → List Char → List Char
  | 0, s => s
  | k + 1, s =>
    match s with
    | '.' :: rest =>
      let (ds, r2) := takeDigits rest
      if ds.isEmpty then s else dotDigitReps k r2
    | _ => s

/-- `RE_NUM_DOT = ^\s*\d+(\.\d+){0,3}\s+` (the formatter's outline
pattern; the repetition is deterministic because `.`/digits/whitespace
are disjoint). -/
def reNumDot (t : List Char) : Bool :=
  let r := t.dropWhile isSpacePy
  let (ds, r2) := takeDigits r
  !ds.isEmpty &&
    (match dotDigitReps 3 r2 with
     | c :: _ => isSpacePy c
     | [] => false)

/-- `t.split()[0].count(".")`: dots in the first whitespace-delimited
token. -/
def tokenDepth (t : List Char) : Nat :=
  ((t.dropWhile isSpacePy).takeWhile (fun c => !isSpacePy c)).count '.'

/-- Unbounded greedy `(\.\d+)*`. -/
def dotDigitRepsAll (s : List Char) : List Char :=
  match s with
  | '.' :: rest =>
    let ds := rest.takeWhile Char.isDigit
    if ds.isEmpty then '.' :: rest
    else
      have : (rest.dropWhile Char.isDigit).length < ('.' :: rest).length :=
        Nat.lt_of_le_of_lt (List.dropWhile_suffix _).sublist.length_le (Nat.lt_succ_self _)
      dotDigitRepsAll (rest.dropWhile Char.isDigit)
  | _ => s
termination_by s.length

/-- A match of `\n\s*\d+(\.\d+)*\s+` at the head of `s`. -/
def mlNumAt (s : List Char) : Bool :=
  match s with
  | '\n' :: r1 =>
    let r2 := r1.dropWhile isSpacePy
    let (ds, r3) := takeDigits r2
    !ds.isEmpty &&
      (match dotDigitRepsAll r3 with
       | c :: _ => isSpacePy c
       | [] => false)
  | _ => false

/-- A match of `\n\s*（[一二三四五六七八九十]+）` at the head of `s`. -/
def mlSubAt (s : List Char) : Bool :=
  match s with
  | '\n' :: r1 =>
    (match r1.dropWhile isSpacePy with
     | '（' :: r2 =>
       !(r2.takeWhile isCnNumeral).isEmpty &&
         (match r2.dropWhile isCnNumeral with
          | '）' :: _ => true
          | _ => false)
     | _ => false)
  | _ => false

/-- `pattern.search(t)`: does the matcher fire at any position? -/
def searchAny (m : List Char → Bool) : List Char → Bool
  | [] => false
  | c :: rest => m (c :: rest) || searchAny m rest

/-- `looks_like_multiline_numbered_block(text)`. -/
def looks_like_multiline_numbered_block (t : List Char) : Bool :=
  searchAny mlNumAt t || searchAny mlSubAt t

/-! ## core/formatter.py and core/docx_utils.py — paragraph predicates -/

/-- The normalization inside `is_effectively_blank_paragraph`: full-width
spaces, NBSP and tabs are erased before the blank test. -/
def normBlank (s : List Char) : List Char :=
  s.filter (fun c => !(c = '　' || c = '\xa0' || c = '\t'))

/-- `is_effectively_blank_paragraph(p)`. -/
def is_effectively_blank_paragraph (p : Para) : Bool :=
  (stripPy (normBlank p.text)).isEmpty &&
    p.runs.all (fun r => (stripPy (normBlank r.text)).isEmpty)

/-- `is_list_paragraph(p)`: the paragraph's `w:pPr` carries a `w:numPr`. -/
def is_list_paragraph (p : Para) : Bool := p.pPr.any PElem.isNumPr

/-- `detect_role(paragraph)`: the ordered rule list of the rule-based
role classifier, translated clause for clause. -/
def detect_role (p : Para) : String :=
  if is_effectively_blank_paragraph p then "blank"
  else
  let text := p.text
  if looks_like_multiline_numbered_block text then "body"
  else
  let sn := lowerStr p.styleName
  if containsSub sn (cs "heading 1") || containsSub sn (cs "标题 1") then "h1"
  else if containsSub sn (cs "heading 2") || containsSub sn (cs "标题 2") then "h2"
  else if containsSub sn (cs "heading 3") || containsSub sn (cs "标题 3") then "h3"
  else if containsSub sn (cs "footer") || containsSub sn (cs "页脚") then "footer"
  else
  let t := stripPy text
  if reAbstract t then "abstract"
  else if reKeyword t then "keyword"
  else if reReference t then "reference"
  else if reCaption t then "caption"
  else if is_list_paragraph p then "list_item"
  else if reSubtitleCN t then "h3"
  else if hasPre (cs "第") t && (t.take 12).contains '章' then "h1"
  else if hasPre (cs "第") t && (t.take 12).contains '节' then "h2"
  else if hasPre (cs "第") t && (t.take 12).contains '条' then "h3"
  else if reCnEnum t then "h2"
  else if reNumDot t then (if tokenDepth t ≤ 0 then "h2" else "h3")
  else "body"

/-! ## core/numbering.py — convert_text_lists

The grouping loop threads `(groups, current, current_fmt,
current_container)` through the paragraph sequence; paragraphs are
identified by their position in the input list. -/

/-- One grouped item: paragraph position, detected format key, ordinal
and prefix length. -/
structure GItem where
  idx : Nat
  fmt : String
  ordinal : Nat
  prefixLen : Nat
deriving DecidableEq

/-- `_STRUCTURAL_ROLES`. -/
def structuralRoles : List String :=
  ["h1", "h2", "h3", "caption", "abstract", "keyword", "reference", "footer"]

/-- `_DECIMAL_FMTS`. -/
def decimalFmts : List String := ["paren_arabic", "rparen"]

/-- `groups.append(current)` guarded by `if current:`. -/
def flushGroup (groups : List (List GItem)) (current : List GItem) : List (List GItem) :=
  if current.isEmpty then groups else groups ++ [current]

/-- The grouping loop of `convert_text_lists`. -/
def groupScan (getRole : Para → String) (isListP : Para → Bool) (isBlank : Para → Bool) :
    List (Nat × Para) → List (List GItem) → List GItem → Option String → Option Nat →
    List (List GItem)
  | [], groups, current, _, _ => flushGroup groups current
  | (i, p) :: rest, groups0, current0, currentFmt0, currentContainer =>
    -- container boundary: flush when crossing into a different parent element
    let st :=
      if currentContainer ≠ some p.container && !current0.isEmpty then
        (groups0 ++ [current0], ([] : List GItem), (none : Option String))
      else (groups0, current0, currentFmt0)
    let groups := st.1
    let current := st.2.1
    let currentFmt := st.2.2
    if isBlank p then
      groupScan getRole isListP isBlank rest (flushGroup groups current) [] none (some p.container)
    else if isListP p then
      groupScan getRole isListP isBlank rest (flushGroup groups current) [] none (some p.container)
    else if structuralRoles.contains (getRole p) then
      groupScan getRole isListP isBlank rest (flushGroup groups current) [] none (some p.container)
    else
      match detect_text_list_prefix p.text with
      | none =>
        groupScan getRole isListP isBlank rest (flushGroup groups current) [] none (some p.container)
      | some (fmt, ordinal, plen) =>
        let seq :=
          !current.isEmpty && decimalFmts.contains fmt &&
            (match currentFmt with
             | some cf => decimalFmts.contains cf
             | none => false) &&
            (match current.getLast? with
             | some it => ordinal = it.ordinal + 1
             | none => false)
        if currentFmt = some fmt || seq then
          groupScan getRole isListP isBlank rest groups (current ++ [⟨i, fmt, ordinal, plen⟩])
            currentFmt (some p.container)
        else
          groupScan getRole isListP isBlank rest (flushGroup groups current)
            [⟨i, fmt, ordinal, plen⟩] (some fmt) (some p.container)

/-- Point update of the paragraph list (paragraph mutation in place). -/
def updateAt : List Para → Nat → (Para → Para) → List Para
  | [], _, _ => []
  | p :: rest, 0, f => f p :: rest
  | p :: rest, i + 1, f => p :: updateAt rest i f

/-- The per-group conversion body: bind every paragraph of the group to
`numId` and strip its text marker. -/
def applyGroup (g : List GItem) (numId : Int) (paras : List Para) : List Para :=
  g.foldl
    (fun ps it =>
      updateAt ps it.idx (fun p => strip_list_text_prefix (apply_numpr p numId 0) it.prefixLen))
    paras

/-- The outcome of `convert_text_lists`: the updated numbering store and
paragraph list, the converted count, the converted paragraph positions,
and — for each accepted group, in conversion order — the group together
with the numbering id `create_list_num_id` allocated for it (the loop's
`(group, num_id)` locals). -/
structure ConvertResult where
  doc : List NumChild
  paras : List Para
  converted : Nat
  convertedIdx : List Nat
  trace : List (List GItem × Int)
deriving DecidableEq

/-- The conversion loop over the accepted groups. -/
def convertGroups : List (List GItem) → Nat → List NumChild → List Para → ConvertResult
  | [], _, doc, paras => ⟨doc, paras, 0, [], []⟩
  | g :: gs, minRun, doc, paras =>
    if g.length < minRun then convertGroups gs minRun doc paras
    else
      match g with
      | [] => convertGroups gs minRun doc paras
        -- `group[0]` in the source; the scan emits only non-empty groups
      | g0 :: _ =>
        let r0 := create_list_num_id doc g0.fmt g0.ordinal
        let r := convertGroups gs minRun r0.2 (applyGroup g r0.1 paras)
        ⟨r.doc, r.paras, g.length + r.converted, g.map (·.idx) ++ r.convertedIdx,
          (g, r0.1) :: r.trace⟩

/-- `convert_text_lists(doc, paragraphs, get_role, is_list_paragraph_fn,
is_blank_fn, min_run_len, …)`. -/
def convert_text_lists (doc : List NumChild) (paras : List Para)
    (getRole : Para → String) (isListP : Para → Bool) (isBlank : Para → Bool)
    (minRunLen : Nat := 1) : ConvertResult :=
  convertGroups (groupScan getRole isListP isBlank paras.enum [] [] none none) minRunLen doc paras

/-! ## core/formatter.py — the soft-break splitter

`_split_body_paragraphs_on_linebreaks` iterates over a snapshot of the
paragraph sequence; each processed paragraph is rewritten in place and
its extra lines are inserted right after it, so the result is the
concatenation of each original paragraph's expansion.  The
`on_new_paragraph` callback is modelled separately by `_inherit_label`. -/

/-- `text.split("\n")` (every `\n` separates; empty pieces are kept). -/
def splitNl : List Char → List (List Char)
  | [] => [[]]
  | c :: rest =>
    if c = '\n' then [] :: splitNl rest
    else
      match splitNl rest with
      | l :: ls => (c :: l) :: ls
      | [] => [[c]]

/-- A line under assembly: its text segments, each with its source run. -/
abbrev LineSegs := List (List Char × Run)

/-- `line_parts[-1].append((part, src_run))`. -/
def pushSeg : List LineSegs → (List Char × Run) → List LineSegs
  | [], seg => [[seg]]
  | [l], seg => [l ++ [seg]]
  | l :: l2 :: ls, seg => l :: pushSeg (l2 :: ls) seg

/-- Feed one run's `\n`-separated parts into the line accumulator: a
non-empty part joins the current last line; every separator starts a new
line. -/
def feedRun (r : Run) : List LineSegs → List (List Char) → List LineSegs
  | acc, [] => acc
  | acc, [p] => if p.isEmpty then acc else pushSeg acc (p, r)
  | acc, p :: p2 :: ps =>
    let acc1 := if p.isEmpty then acc else pushSeg acc (p, r)
    feedRun r (acc1 ++ [[]]) (p2 :: ps)

/-- The `line_parts` accumulation over all runs. -/
def lineParts (runs : List Run) : List LineSegs :=
  runs.foldl (fun acc r => feedRun r acc (splitNl r.text)) [[]]

/-- The `resolved_lines` pass: join and strip each line, drop empty
lines, and record the style-source run (the line's first segment's run,
else the paragraph's first raw run). -/
def resolveLines (rawRuns : List Run) (lines : List LineSegs) : List (List Char × Option Run) :=
  lines.filterMap (fun parts =>
    let lineText := stripPy (parts.map Prod.fst).flatten
    if lineText.isEmpty then none
    else
      let styleRun :=
        match parts with
        | (_, r) :: _ => some r
        | [] => rawRuns.head?
      some (lineText, styleRun))

/-- `add_run(text)` followed by `copy_run_style(style_run, new_run)` when
a style-source run exists. -/
def mkStyledRun (text : List Char) : Option Run → Run
  | some r => { text := text, styleId := r.styleId }
  | none => { text := text }

/-- The per-paragraph body of the splitter: the number of paragraphs
created and the expansion of this paragraph. -/
def splitOne (roleGetter : Para → String) (p : Para) : Nat × List Para :=
  if is_effectively_blank_paragraph p then (0, [p])
  else if roleGetter p ≠ "body" then (0, [p])
  else if !(p.text.contains '\n') then (0, [p])
  else
    match resolveLines p.runs (lineParts p.runs) with
    | [] => (0, [p])
    | [_] => (0, [p])
    | (t1, sr1) :: rest =>
      let p' := { p with runs := [mkStyledRun t1 sr1] }
      let newPs := rest.map fun ln =>
        ({ runs := [mkStyledRun ln.1 ln.2], styleName := p.styleName,
           container := p.container } : Para)
      (rest.length, p' :: newPs)

/-- `_split_body_paragraphs_on_linebreaks(doc, role_getter)`: returns the
count of new paragraphs and the rewritten sequence. -/
def _split_body_paragraphs_on_linebreaks (paras : List Para) (roleGetter : Para → String) :
    Nat × List Para :=
  paras.foldl
    (fun st p =>
      let r := splitOne roleGetter p
      (st.1 + r.1, st.2 ++ r.2))
    (0, [])

/-- `_inherit_label(parent_p, child_p)` over the element-keyed label map:
a child with no label inherits its parent's label, unconditionally. -/
def _inherit_label (m : List (Para × String)) (parent child : Para) : List (Para × String) :=
  match m.lookup parent, m.lookup child with
  | some lab, none => m ++ [(child, lab)]
  | _, _ => m

/-- `apply_formatting`'s role resolver: the label map wins, otherwise the
rule classifier. -/
def getRoleWithLabels (labelOf : Para → Option String) (p : Para) : String :=
  match labelOf p with
  | some r => r
  | none => detect_role p

/-! ## Blocks, label dictionaries, core/judge.py -/

/-- A classification block (`core/parser.py`): stable id, text, 0-based
document-flow position. -/
structure Block where
  blockId : Nat
  text : String
  paragraphIndex : Nat
deriving DecidableEq

/-- A Python dict from block id to role, as a binding list: later
bindings shadow earlier ones. -/
abbrev LabelDict := List (Nat × String)

/-- Dict lookup (`d.get(k)`): the last binding wins. -/
def dget (d : LabelDict) (k : Nat) : Option String :=
  d.foldl (fun acc e => if e.1 = k then some e.2 else acc) none

/-- `rule_based_labels(blocks, doc)` (the `doc is not None` path): label
each block by `detect_role` on its paragraph, falling back to a plain
blank/body test when the paragraph index is out of range. -/
def rule_based_labels (blocks : List Block) (paras : List Para) : LabelDict :=
  blocks.map fun b =>
    (b.blockId,
      match paras.get? b.paragraphIndex with
      | some p => detect_role p
      | none => if (stripPy b.text.data).isEmpty then "blank" else "body")

/-! ## agent/mode_router.py -/

/-- `LLM_TO_INTERNAL_ROLE`. -/
def llmToInternalRole : List (String × String) :=
  [("title_1", "h1"), ("title_2", "h2"), ("title_3", "h3"), ("body", "body"),
   ("list_item", "list_item"), ("table_caption", "caption"), ("figure_caption", "caption"),
   ("abstract", "abstract"), ("keyword", "keyword"), ("reference", "reference"),
   ("footer", "footer"), ("unknown", "unknown")]

/-- `_normalize_role(role)`: unknown external vocabulary degrades to
`unknown`. -/
def _normalize_role (role : String) : String :=
  (llmToInternalRole.lookup role).getD "unknown"

/-- One per-paragraph entry of the external classifier's response. -/
structure ReviewPara where
  index : Nat
  paragraphType : String
  confidence : ℚ
deriving DecidableEq

/-- The external classifier's document review (the suggestion payload,
which the label merge never reads, is not modelled). -/
structure DocumentReview where
  paragraphs : List ReviewPara
deriving DecidableEq

/-- `HYBRID_CONFIDENCE_THRESHOLD = 0.7` (the rational `7/10`, written
through the `Rat` constructor so that comparisons evaluate in the
kernel). -/
def hybridConfidenceThreshold : ℚ := ⟨7, 10, by decide, by decide⟩

/-- `HYBRID_TRIGGER_HEADING_LEN = 30`. -/
def hybridTriggerHeadingLen : Nat := 30

/-- `HYBRID_TRIGGER_CONSECUTIVE_BODY_MIN = 3`. -/
def hybridTriggerConsecutiveBodyMin : Nat := 3

/-- `HYBRID_TRIGGER_SHORT_BODY_CHARS = 60`. -/
def hybridTriggerShortBodyChars : Nat := 60

/-- `_structure_to_labels(structure)`: `{p.index: normalized role}`. -/
def _structure_to_labels (r : DocumentReview) : LabelDict :=
  r.paragraphs.map fun p => (p.index, _normalize_role p.paragraphType)

/-- `_structure_low_confidence(structure)`. -/
def _structure_low_confidence (r : DocumentReview) : List Nat :=
  (r.paragraphs.filter (fun p => p.confidence < hybridConfidenceThreshold)).map (·.index)

/-- `triggered_indices.add(i)`: insertion into a set, modelled as an
ordered duplicate-free list. -/
def addIdx (l : List Nat) (i : Nat) : List Nat :=
  if l.contains i then l else l ++ [i]

/-- Stable insertion by `paragraph_index` (Python `sorted` is stable). -/
def insertByIdx (b : Block) : List Block → List Block
  | [] => [b]
  | c :: rest =>
    if c.paragraphIndex ≤ b.paragraphIndex then c :: insertByIdx b rest
    else b :: c :: rest

/-- `sorted(blocks, key=lambda x: x.paragraph_index)`. -/
def sortBlocks (blocks : List Block) : List Block :=
  blocks.foldl (fun acc b => insertByIdx b acc) []

/-- Is this block a short `body` paragraph for trigger 3? -/
def isShortBody (rl : LabelDict) (b : Block) : Bool :=
  dget rl b.blockId = some "body" &&
    0 < (stripPy b.text.data).length &&
    (stripPy b.text.data).length ≤ hybridTriggerShortBodyChars

/-- The outcome of `_compute_hybrid_triggers` (its `metrics` sub-dict is
flattened into the count fields). -/
structure TriggerInfo where
  triggeredIndices : List Nat
  reasons : List String
  unknownCount : Nat
  ambiguousHeadingCount : Nat
deriving DecidableEq

/-- Trigger 3's scan: accumulate runs of consecutive short `body` blocks
over the index-sorted sequence, flushing runs of length ≥ 3 into the
trigger set. -/
def shortBodyRuns (rl : LabelDict) :
    List Block → List Block → List Nat × List String → List Nat × List String
  | [], run, (idxs, reasons) =>
    if hybridTriggerConsecutiveBodyMin ≤ run.length then
      (run.foldl (fun acc b => addIdx acc b.paragraphIndex) idxs,
       reasons ++ [s!"结构化改写机会: {run.length} 个连续短正文段落，可能适合列表化"])
    else (idxs, reasons)
  | b :: rest, run, (idxs, reasons) =>
    if isShortBody rl b then shortBodyRuns rl rest (run ++ [b]) (idxs, reasons)
    else
      if hybridTriggerConsecutiveBodyMin ≤ run.length then
        shortBodyRuns rl rest []
          (run.foldl (fun acc b => addIdx acc b.paragraphIndex) idxs,
           reasons ++ [s!"结构化改写机会: {run.length} 个连续短正文段落，可能适合列表化"])
      else shortBodyRuns rl rest [] (idxs, reasons)

/-- `_compute_hybrid_triggers(blocks, rule_labels)`. -/
def _compute_hybrid_triggers (blocks : List Block) (rl : LabelDict) : TriggerInfo :=
  let unknownBlocks := blocks.filter (fun b => dget rl b.blockId = some "unknown")
  let idxs1 := unknownBlocks.foldl (fun acc b => addIdx acc b.paragraphIndex) []
  let reasons1 :=
    if unknownBlocks.length ≥ 1 then
      [s!"术语/类型不明: {unknownBlocks.length} 个段落规则无法判定 (unknown)，需语义审阅"]
    else []
  let ambiguous := blocks.filter fun b =>
    (dget rl b.blockId = some "h2" || dget rl b.blockId = some "h3") &&
      hybridTriggerHeadingLen < b.text.length
  let idxs2 := ambiguous.foldl (fun acc b => addIdx acc b.paragraphIndex) idxs1
  let reasons2 :=
    if !ambiguous.isEmpty then
      reasons1 ++ [s!"标题层级疑似错误: {ambiguous.length} 个标题段落文本超过 30 字符，可能被误分类"]
    else reasons1
  let r3 := shortBodyRuns rl (sortBlocks blocks) [] (idxs2, reasons2)
  ⟨r3.1, r3.2, unknownBlocks.length, ambiguous.length⟩

/-- The `_hybrid_triggers` record the router attaches to its result. -/
structure HybridTriggersRecord where
  triggered : Bool
  reasons : List String
  triggeredParagraphCount : Nat
  totalParagraphCount : Nat
  llmCalled : Bool
  llmError : Option String
deriving DecidableEq

/-- A label-routing result: the per-block label dict plus the `_source`,
`_warnings` and `_hybrid_triggers` metadata keys (the `_llm_review`
payload, never read by the label consumers, is not modelled). -/
structure ModeOutput where
  labels : LabelDict
  source : String
  warnings : List String
  triggers : Option HybridTriggersRecord
deriving DecidableEq

/-- `ModeRouter.route` in `rule` mode: a copy of the rule labels with
`_source = "rule"`. -/
def route_rule (rl : LabelDict) : ModeOutput :=
  ⟨rl, "rule", [], none⟩

/-- The warning `_hybrid` appends when the external call raises. -/
def hybridFailWarning (e : String) : String :=
  "hybrid 模式 LLM 审阅失败，已保留规则结果: " ++ e

/-- The warning `_hybrid` appends when low-confidence entries fell back. -/
def lowConfWarning (n : Nat) : String :=
  s!"hybrid 模式：{n} 个触发段落 LLM 置信度 < 0.7，已回退规则标签"

/-- `ModeRouter._hybrid(doc, blocks, rule_labels)`.  The external call is
passed in as its outcome (`Except`): an `error` models `LLMCallError`.
When no trigger fires the call's outcome is never consulted. -/
def hybridRoute (blocks : List Block) (rl : LabelDict)
    (review : Except String DocumentReview) : ModeOutput :=
  let trig := _compute_hybrid_triggers blocks rl
  let base : LabelDict := blocks.map fun b => (b.blockId, (dget rl b.blockId).getD "body")
  let rec0 : HybridTriggersRecord :=
    ⟨!trig.triggeredIndices.isEmpty, trig.reasons, trig.triggeredIndices.length,
      blocks.length, false, none⟩
  if trig.triggeredIndices.isEmpty then
    ⟨base, "hybrid", [], some rec0⟩
  else
    match review with
    | .error e =>
      ⟨base, "hybrid", [hybridFailWarning e],
        some { rec0 with llmCalled := true, llmError := some e }⟩
    | .ok r =>
      let llmLabels := _structure_to_labels r
      let lowConf := (_structure_low_confidence r).foldl addIdx []
      let merged : LabelDict := blocks.map fun b =>
        (b.blockId,
          if !trig.triggeredIndices.contains b.paragraphIndex then
            (dget rl b.blockId).getD "body"
          else if lowConf.contains b.paragraphIndex then
            (dget rl b.blockId).getD "body"
          else
            match dget llmLabels b.paragraphIndex with
            | some lab => lab
            | none => (dget rl b.blockId).getD "body")
      let warns := if lowConf.isEmpty then [] else [lowConfWarning lowConf.length]
      ⟨merged, "hybrid", warns, some { rec0 with llmCalled := true }⟩

/-- Is this label covered for the coverage statistic of
`apply_formatting` (truthy, neither `blank` nor `unknown`)? -/
def coveredLabel : Option String → Bool
  | some lab => !(lab = "") && !(lab = "blank") && !(lab = "unknown")
  | none => false

/-- The coverage rate of `apply_formatting`: the fraction of blocks whose
label is covered (`0.0` for an empty block list). -/
def coverageRate (get : Nat → Option String) (blocks : List Block) : ℚ :=
  if blocks.length = 0 then 0
  else (blocks.countP (fun b => coveredLabel (get b.blockId)) : ℚ) / blocks.length

/-! ## core/docx_utils.py — document-flow traversal

The document flow, as `iter_all_paragraphs` reads it through python-docx:
a container holds paragraphs and tables in XML order; a table exposes a
grid of rows and cells, where a cell spanned by merged rows or columns
repeats the same underlying `w:tc` element at several grid positions.  A
paragraph carries the identity of its underlying XML element. -/

/-- A node of the document flow: a paragraph or a table; a grid cell is
the identity of its `w:tc` element paired with the cell's own flow
content. -/
inductive DNode where
  | para (pid : Nat)
  | table (rows : List (List (Nat × List DNode)))

mutual

/-- `walk_container` of `iter_all_paragraphs`. -/
def walkNodes : List DNode → List Nat
  | [] => []
  | DNode.para pid :: rest => pid :: walkNodes rest
  | DNode.table rows :: rest => walkRows rows [] ++ walkNodes rest

/-- The per-table row loop, threading the table's `seen_tc` set. -/
def walkRows : List (List (Nat × List DNode)) → List Nat → List Nat
  | [], _ => []
  | row :: rest, seen =>
    let r := walkCells row seen
    r.1 ++ walkRows rest r.2

/-- One row: visit each grid cell unless its `w:tc` identity was already
seen in this table. -/
def walkCells : List (Nat × List DNode) → List Nat → List Nat × List Nat
  | [], seen => ([], seen)
  | (tc, items) :: rest, seen =>
    if seen.contains tc then walkCells rest seen
    else
      let r := walkCells rest (seen ++ [tc])
      (walkNodes items ++ r.1, r.2)

end

/-- `iter_all_paragraphs(doc)`: the flat, order-preserving paragraph
sequence of the whole document flow. -/
def iter_all_paragraphs (doc : List DNode) : List Nat := walkNodes doc

/-- The distinct grid cells of a cell sequence, first occurrence kept,
occurrences whose `w:tc` identity lies in `seen` dropped: one visit per
underlying cell element. -/
def dedupCells : List (Nat × List DNode) → List Nat → List (Nat × List DNode)
  | [], _ => []
  | (tc, items) :: rest, seen =>
    if seen.contains tc then dedupCells rest seen
    else (tc, items) :: dedupCells rest (seen ++ [tc])

/-- The paragraphs a cell sequence contributes when every listed cell is
visited exactly once, in order. -/
def cellsParas (cells : List (Nat × List DNode)) : List Nat :=
  (cells.map (fun c => walkNodes c.2)).flatten

/-! ## Concrete documents and inputs used by the claim evaluations -/

/-- A plain one-run paragraph in the default `Normal` style. -/
def mkPara (s : String) : Para :=
  { runs := [{ text := s.data }], styleName := "Normal".data }

/-- A text-marker paragraph with no heading pattern: the C1 evaluation
input. -/
def paraParen1 : Para := mkPara "（1）第一项"

/-- A marker paragraph whose detected ordinal is `0`. -/
def paraZero : Para := mkPara "0) 引言"

/-- The conversion of the single-paragraph document `0) 引言`. -/
def convZero : ConvertResult :=
  convert_text_lists [] [paraZero] (fun _ => "body") is_list_paragraph
    is_effectively_blank_paragraph 1

/-- A marker paragraph with three spaces after the marker. -/
def paraSpaced : Para := mkPara "1)   第一项"

/-- The conversion of the single-paragraph document `1)   第一项`. -/
def convSpaced : ConvertResult :=
  convert_text_lists [] [paraSpaced] (fun _ => "body") is_list_paragraph
    is_effectively_blank_paragraph 1

/-- A conversion starting mid-sequence (first ordinal 2), for ordinal
continuity. -/
def convMidStart : ConvertResult :=
  convert_text_lists [] [mkPara "2）乙方义务", mkPara "3）丙方义务"] (fun _ => "body")
    is_list_paragraph is_effectively_blank_paragraph 1

/-- The §8 scenario paragraph: a preamble sentence followed by two
numbered items joined by soft breaks, labelled `list_item`. -/
def scenSplitPara : Para := mkPara "结合背景，方向如下：\n1. 保研。\n2. 就业。"

/-- A numbering store already holding id 3. -/
def storeWith3 : List NumChild := [{ tag := "w:num", numIdAttr := some 3 }]

/-- Two same-marker paragraphs in different table cells. -/
def cellDocParas : List Para :=
  [{ runs := [{ text := "1) 第一条".data }], styleName := "Normal".data, container := 1 },
   { runs := [{ text := "1) 甲".data }], styleName := "Normal".data, container := 2 }]

/-- Their conversion: one group per cell. -/
def convCells : ConvertResult :=
  convert_text_lists [] cellDocParas (fun _ => "body") is_list_paragraph
    is_effectively_blank_paragraph 1

/-- A single short body block that fires no hybrid trigger. -/
def quietBlocks : List Block := [⟨1, "正文内容。", 0⟩]

/-- Its rule labels. -/
def quietRl : LabelDict := [(1, "body")]

/-- A single `unknown`-labelled block: trigger 1 fires. -/
def unknownBlocks : List Block := [⟨0, "xx", 0⟩]

/-- Its rule labels. -/
def unknownRl : LabelDict := [(0, "unknown")]

/-- A heading block whose text exceeds the 30-character threshold:
trigger 2 fires. -/
def longHeadingBlocks : List Block :=
  [⟨1, "This heading text is quite long and exceeds the thirty character limit", 0⟩]

/-- Its rule labels. -/
def longHeadingRl : LabelDict := [(1, "h2")]

/-- An external review that confidently labels paragraph 0 `unknown`. -/
def reviewUnknown : DocumentReview := ⟨[⟨0, "unknown", ⟨9, 10, by decide, by decide⟩⟩]⟩

/-- An external review that confidently labels paragraph 0 `body`. -/
def reviewBody : DocumentReview := ⟨[⟨0, "body", ⟨9, 10, by decide, by decide⟩⟩]⟩

/-- The per-paragraph entries an external call outcome carries. -/
def reviewParasOf : Except String DocumentReview → List ReviewPara
  | .ok r => r.paragraphs
  | .error _ => []

/-- The text of the first non-empty run, when one exists. -/
def firstNonemptyText (runs : List Run) : Option (List Char) :=
  (runs.find? (fun r => !r.text.isEmpty)).map Run.text

/-- A table grid with a row-merged cell (`w:tc` 10 occupies two grid
positions) and a nested table inside another cell. -/
def mergedRows : List (List (Nat × List DNode)) :=
  [[(10, [DNode.para 2]), (10, [DNode.para 2])],
   [(11, [DNode.para 3, DNode.table [[(20, [DNode.para 4])]]])]]

/-- A document holding that table between two body paragraphs. -/
def mergedDoc : List DNode := [DNode.para 1, DNode.table mergedRows, DNode.para 5]

/-! ## Claim C1 — the classifier and the six marker families -/

/-- C1: the spec says a paragraph that begins with a text list marker
and matches no higher-priority rule is classified `list_item`; the
repository's own tests assert the same (`test_detect_role_body_list_*`).
Evaluating the classifier at such a paragraph: the marker is detected by
the list subsystem, yet `detect_role` has no text-marker clause and falls
through to `body`. -/
theorem C1_detect_role_marker_falls_to_body :
    detect_text_list_prefix paraParen1.text = some ("paren_arabic", 1, 3) ∧
    detect_role paraParen1 = "body" ∧
    detect_role paraParen1 ≠ "list_item" ∧
    detect_role (mkPara "1. 第一点内容") = "body" ∧
    detect_role (mkPara "①第一点") = "body" ∧
    detect_role (mkPara "a. 选项A") = "body" := by
  refine ⟨by decide, by decide, by decide, by decide, by decide, by decide⟩

/-! ## Claim C6 — the splitter and `list_item` paragraphs -/

/-- C6: the spec (and the repository's own test
`test_split_linebreaks_in_table_cell_list_item_paragraph`) says a
`list_item`-labelled paragraph with soft breaks is split, its unmarked
leading fragment reassigned to `body`.  Evaluating the splitter at the
§8 scenario paragraph: with the resolved role `list_item` the paragraph
is skipped entirely (the guard admits only `body`), no fragment is
created, and `_inherit_label` copies the parent label unconditionally —
there is no `body` reassignment path. -/
theorem C6_splitter_skips_list_item :
    _split_body_paragraphs_on_linebreaks [scenSplitPara] (fun _ => "list_item") =
      (0, [scenSplitPara]) ∧
    (_split_body_paragraphs_on_linebreaks [scenSplitPara] (fun _ => "body")).1 = 2 ∧
    _inherit_label [(scenSplitPara, "list_item")] scenSplitPara (mkPara "1. 保研。") =
      [(scenSplitPara, "list_item"), (mkPara "1. 保研。", "list_item")] := by
  refine ⟨by decide, by decide, by decide⟩

/-! ## Claim C3 — ordinal continuity and the `w:start` clamp -/

/-- C3 counterexample: a group whose first detected ordinal is `0`
(marker `0)`) is materialized with `w:start = 1`, not `0` —
`_build_abstractNum` clamps the start to `max(1, start_ordinal)`. -/
theorem C3_counterexample_zero_ordinal :
    convZero.trace.map (fun t => t.1.map GItem.ordinal) = [[0]] ∧
    convZero.doc.map NumChild.start = [some 1, none] ∧
    ¬ some 0 ∈ convZero.doc.map NumChild.start := by
  refine ⟨by decide, by decide, by decide⟩

/-! ## Claim C5 — round-trip text after stripping -/

/-- C5 counterexample: converting `1)   第一项` (three spaces after the
marker) leaves run text `第一项`, while the claim allows only the marker
prefix (3 code points) plus at most one further trailing space to be
removed — neither candidate remainder matches, because the strip also
removes the whole leading-whitespace run of the first non-empty run. -/
theorem C5_counterexample_extra_spaces :
    detect_text_list_prefix paraSpaced.text = some ("rparen", 1, 3) ∧
    convSpaced.paras.map Para.text = [cs "第一项"] ∧
    cs "第一项" ≠ paraSpaced.text.drop 3 ∧
    cs "第一项" ≠ paraSpaced.text.drop 4 := by
  refine ⟨by decide, by decide, by decide, by decide⟩

/-! ## Claim C8 — hybrid failure handling -/

/-- C8 counterexample: with rule labels `{0: unknown}` (trigger 1 fires)
and a failing external call, the router's result keeps the rule label and
records a warning naming the failure, but its reported source is
`"hybrid"`, not `"rule"` as the claim states. -/
theorem C8_counterexample_source_is_hybrid :
    (hybridRoute unknownBlocks unknownRl (Except.error "boom")).source ≠ "rule" ∧
    (hybridRoute unknownBlocks unknownRl (Except.error "boom")).source = "hybrid" ∧
    (hybridRoute unknownBlocks unknownRl (Except.error "boom")).labels = [(0, "unknown")] ∧
    (hybridRoute unknownBlocks unknownRl (Except.error "boom")).warnings.any
      (fun w => containsSub w.data (cs "boom")) := by
  refine ⟨by decide, by decide, by decide, by decide⟩

/-! ## Claim C9 — coverage monotonicity -/

/-- C9 counterexample: a long `h2`-labelled block fires trigger 2; the
external classifier confidently answers `unknown`, which replaces the
covered rule label, so hybrid coverage (0) drops below rule-only
coverage (1). -/
theorem C9_counterexample_confident_unknown :
    coverageRate (dget (hybridRoute longHeadingBlocks longHeadingRl
        (Except.ok reviewUnknown)).labels) longHeadingBlocks <
      coverageRate (dget (route_rule longHeadingRl).labels) longHeadingBlocks := by
  have hc : longHeadingBlocks.countP
      (fun b => coveredLabel (dget (hybridRoute longHeadingBlocks longHeadingRl
        (Except.ok reviewUnknown)).labels b.blockId)) = 0 := by decide
  have hr : longHeadingBlocks.countP
      (fun b => coveredLabel (dget (route_rule longHeadingRl).labels b.blockId)) = 1 := by
    decide
  have hl : longHeadingBlocks.length = 1 := by decide
  unfold coverageRate
  simp only [hc, hr, hl]
  norm_num

/-! ## Lemmas on the numbering store and id allocation -/

theorem le_foldl_max : ∀ (xs : List Int) (x : Int), x ≤ xs.foldl max x
  | [], _ => le_refl _
  | y :: ys, x => le_trans (le_max_left x y) (le_foldl_max ys (max x y))

theorem mem_le_foldl_max : ∀ (xs : List Int) (x v : Int), v ∈ xs → v ≤ xs.foldl max x
  | y :: ys, x, v, h => by
    rcases List.mem_cons.mp h with rfl | h'
    · exact le_trans (le_max_right x v) (le_foldl_max ys _)
    · exact mem_le_foldl_max ys _ v h'

/-- Every id present in the store is strictly below `_next_free_id`. -/
theorem lt_next_free_id {nelem : List NumChild} {v : Int} (h : v ∈ allIds nelem) :
    v < _next_free_id nelem := by
  unfold _next_free_id
  cases hall : allIds nelem with
  | nil => rw [hall] at h; cases h
  | cons x xs =>
    rw [hall] at h
    rcases List.mem_cons.mp h with rfl | h'
    · exact lt_of_le_of_lt (le_foldl_max xs v) (lt_add_one _)
    · exact lt_of_le_of_lt (mem_le_foldl_max xs x v h') (lt_add_one _)

theorem allIds_cons (c : NumChild) (l : List NumChild) :
    allIds (c :: l) = c.ids ++ allIds l := by
  simp [allIds]

theorem allIds_append (a b : List NumChild) :
    allIds (a ++ b) = allIds a ++ allIds b := by
  simp [allIds]

theorem mem_allIds_insert (nelem : List NumChild) (a : NumChild) (v : Int) :
    v ∈ allIds (_insert_before_first_num nelem a) ↔ v ∈ allIds nelem ∨ v ∈ a.ids := by
  induction nelem with
  | nil => simp [_insert_before_first_num, allIds_cons, allIds]
  | cons c rest ih =>
    unfold _insert_before_first_num
    by_cases h : c.tag = "w:num"
    · simp only [if_pos h, allIds_cons, List.mem_append]
      tauto
    · simp only [if_neg h, allIds_cons, List.mem_append, ih]
      tauto

theorem mem_insert_of_mem {nelem : List NumChild} {a c : NumChild} (h : c ∈ nelem) :
    c ∈ _insert_before_first_num nelem a := by
  induction nelem with
  | nil => cases h
  | cons d rest ih =>
    unfold _insert_before_first_num
    rcases List.mem_cons.mp h with rfl | h'
    · by_cases hd : c.tag = "w:num" <;> simp [hd]
    · by_cases hd : d.tag = "w:num" <;> simp [hd, ih h', h']

theorem self_mem_insert (nelem : List NumChild) (a : NumChild) :
    a ∈ _insert_before_first_num nelem a := by
  induction nelem with
  | nil => simp [_insert_before_first_num]
  | cons d rest ih =>
    unfold _insert_before_first_num
    by_cases hd : d.tag = "w:num" <;> simp [hd, ih]

/-- `create_list_num_id` returns exactly the next free id. -/
theorem create_fst (nelem : List NumChild) (fmt : String) (k : Nat) :
    (create_list_num_id nelem fmt k).1 = _next_free_id nelem := rfl

theorem mem_allIds_create (nelem : List NumChild) (fmt : String) (k : Nat) (v : Int) :
    v ∈ allIds ((create_list_num_id nelem fmt k).2) ↔
      v ∈ allIds nelem ∨ v = _next_free_id nelem := by
  unfold create_list_num_id
  simp only [allIds_append, List.mem_append, mem_allIds_insert]
  simp [_build_abstractNum, _build_num, NumChild.ids, allIds]

theorem mem_create_of_mem {nelem : List NumChild} {c : NumChild} (fmt : String) (k : Nat)
    (h : c ∈ nelem) : c ∈ (create_list_num_id nelem fmt k).2 :=
  List.mem_append_left _ (mem_insert_of_mem h)

theorem abs_mem_create (nelem : List NumChild) (fmt : String) (k : Nat) :
    _build_abstractNum (_next_free_id nelem) fmt k ∈ (create_list_num_id nelem fmt k).2 :=
  List.mem_append_left _ (self_mem_insert nelem _)

/-- Allocation advances: the id just allocated is below the next one. -/
theorem next_lt_next_create (nelem : List NumChild) (fmt : String) (k : Nat) :
    _next_free_id nelem < _next_free_id ((create_list_num_id nelem fmt k).2) := by
  apply lt_next_free_id
  rw [mem_allIds_create]
  exact Or.inr rfl

/-! ## Lemmas on the conversion loop -/

/-- Every id the conversion loop allocates is at least the incoming
store's next free id. -/
theorem trace_id_lb :
    ∀ (gs : List (List GItem)) (minRun : Nat) (doc : List NumChild) (paras : List Para),
      ∀ pr ∈ (convertGroups gs minRun doc paras).trace, _next_free_id doc ≤ pr.2
  | [], _, _, _ => by intro pr hpr; simp [convertGroups] at hpr
  | g :: gs, minRun, doc, paras => by
    intro pr hpr
    unfold convertGroups at hpr
    by_cases hlen : g.length < minRun
    · rw [if_pos hlen] at hpr
      exact trace_id_lb gs minRun doc paras pr hpr
    · rw [if_neg hlen] at hpr
      cases g with
      | nil => exact trace_id_lb gs minRun doc paras pr hpr
      | cons g0 gtl =>
        simp only [List.mem_cons] at hpr
        rcases hpr with rfl | h'
        · exact le_of_eq rfl
        · exact le_trans (le_of_lt (next_lt_next_create doc g0.fmt g0.ordinal))
            (trace_id_lb gs minRun _ _ pr h')

/-- The ids allocated along the conversion trace are strictly
increasing. -/
theorem trace_pairwise_lt :
    ∀ (gs : List (List GItem)) (minRun : Nat) (doc : List NumChild) (paras : List Para),
      ((convertGroups gs minRun doc paras).trace.map Prod.snd).Pairwise (· < ·)
  | [], _, _, _ => by simp [convertGroups]
  | g :: gs, minRun, doc, paras => by
    unfold convertGroups
    by_cases hlen : g.length < minRun
    · rw [if_pos hlen]
      exact trace_pairwise_lt gs minRun doc paras
    · rw [if_neg hlen]
      cases g with
      | nil => exact trace_pairwise_lt gs minRun doc paras
      | cons g0 gtl =>
        simp only [List.map_cons, List.pairwise_cons]
        constructor
        · intro b hb
          simp only [List.mem_map] at hb
          obtain ⟨pr, hpr, rfl⟩ := hb
          exact lt_of_lt_of_le (next_lt_next_create doc g0.fmt g0.ordinal)
            (trace_id_lb gs minRun _ _ pr hpr)
        · exact trace_pairwise_lt gs minRun _ _

/-- The conversion loop never removes a store child. -/
theorem convert_doc_preserves :
    ∀ (gs : List (List GItem)) (minRun : Nat) (doc : List NumChild) (paras : List Para)
      (c : NumChild), c ∈ doc → c ∈ (convertGroups gs minRun doc paras).doc
  | [], _, _, _, _ => by intro h; simpa [convertGroups] using h
  | g :: gs, minRun, doc, paras, c => by
    intro h
    unfold convertGroups
    by_cases hlen : g.length < minRun
    · rw [if_pos hlen]
      exact convert_doc_preserves gs minRun doc paras c h
    · rw [if_neg hlen]
      cases g with
      | nil => exact convert_doc_preserves gs minRun doc paras c h
      | cons g0 gtl =>
        exact convert_doc_preserves gs minRun _ _ c (mem_create_of_mem _ _ h)

/-- Every traced group left its abstract definition, with the clamped
start ordinal, in the final store. -/
theorem trace_abs_in_doc :
    ∀ (gs : List (List GItem)) (minRun : Nat) (doc : List NumChild) (paras : List Para)
      (g : List GItem) (id : Int),
      (g, id) ∈ (convertGroups gs minRun doc paras).trace →
      ∀ g0 gtl, g = g0 :: gtl →
        _build_abstractNum id g0.fmt g0.ordinal ∈ (convertGroups gs minRun doc paras).doc
  | [], _, _, _, _, _ => by intro h; simp [convertGroups] at h
  | g :: gs, minRun, doc, paras, g', id => by
    intro h g0 gtl hg
    unfold convertGroups at h ⊢
    by_cases hlen : g.length < minRun
    · rw [if_pos hlen] at h ⊢
      exact trace_abs_in_doc gs minRun doc paras g' id h g0 gtl hg
    · rw [if_neg hlen] at h ⊢
      cases g with
      | nil => exact trace_abs_in_doc gs minRun doc paras g' id h g0 gtl hg
      | cons h0 htl =>
        simp only [List.mem_cons] at h
        rcases h with heq | h'
        · have hg' : g' = h0 :: htl := congrArg Prod.fst heq
          have hid : id = (create_list_num_id doc h0.fmt h0.ordinal).1 :=
            congrArg Prod.snd heq
          rw [hg] at hg'
          injection hg' with h1 h2
          subst h1
          subst h2
          subst hid
          exact convert_doc_preserves gs minRun _ _ _
            (abs_mem_create doc g0.fmt g0.ordinal)
        · exact trace_abs_in_doc gs minRun _ _ g' id h' g0 gtl hg

/-! ## Claim C2 — numbering-id freshness -/

/-- C2: `create_list_num_id` allocates an id strictly greater than every
integer id currently present in either the `w:abstractNumId` or the
`w:numId` attribute space, and distinct list groups materialized by
`convert_text_lists` on the same document receive pairwise distinct
numbering ids. -/
theorem C2_numbering_id_freshness :
    (∀ (nelem : List NumChild) (fmt : String) (k : Nat) (v : Int),
        v ∈ allIds nelem → v < (create_list_num_id nelem fmt k).1) ∧
    (∀ (doc : List NumChild) (paras : List Para) (getRole : Para → String)
        (isListP isBlank : Para → Bool) (minRunLen : Nat),
        ((convert_text_lists doc paras getRole isListP isBlank minRunLen).trace.map
            Prod.snd).Pairwise (· ≠ ·)) := by
  constructor
  · intro nelem fmt k v hv
    rw [create_fst]
    exact lt_next_free_id hv
  · intro doc paras getRole isListP isBlank minRunLen
    exact (trace_pairwise_lt _ _ _ _).imp (fun h => ne_of_lt h)

/-- C2 witness: a store holding id 3 allocates 4, and the two-cell
document materializes two groups with distinct ids. -/
theorem C2_numbering_id_freshness_witness :
    ((3 : Int) ∈ allIds storeWith3 ∧
      (3 : Int) < (create_list_num_id storeWith3 "rparen" 1).1) ∧
    (convCells.trace.map Prod.snd).Pairwise (· ≠ ·) := by
  refine ⟨⟨by decide, C2_numbering_id_freshness.1 storeWith3 "rparen" 1 3 (by decide)⟩, ?_⟩
  exact C2_numbering_id_freshness.2 [] cellDocParas (fun _ => "body") is_list_paragraph
    is_effectively_blank_paragraph 1

/-! ## Claim C3 — the amended ordinal-continuity statement -/

/-- C3 as the code enforces it: for every group the conversion loop
accepts, the final store holds that group's abstract numbering
definition, whose single level starts at `max 1 k` where `k` is the
group's first detected ordinal (Word requires `w:start ≥ 1`, so ordinal
0 is clamped; for every group starting at `k ≥ 1` the start is exactly
`k`). -/
theorem C3_start_ordinal_clamped :
    ∀ (doc : List NumChild) (paras : List Para) (getRole : Para → String)
      (isListP isBlank : Para → Bool) (minRunLen : Nat) (g : List GItem) (id : Int)
      (g0 : GItem) (gtl : List GItem),
      (g, id) ∈ (convert_text_lists doc paras getRole isListP isBlank minRunLen).trace →
      g = g0 :: gtl →
      ∃ c ∈ (convert_text_lists doc paras getRole isListP isBlank minRunLen).doc,
        c.tag = "w:abstractNum" ∧ c.absId = some id ∧ c.fmt = some g0.fmt ∧
          c.start = some (max 1 g0.ordinal) := by
  intro doc paras getRole isListP isBlank minRunLen g id g0 gtl htr hg
  refine ⟨_build_abstractNum id g0.fmt g0.ordinal,
    trace_abs_in_doc _ _ _ _ g id htr g0 gtl hg, rfl, rfl, rfl, rfl⟩

/-- C3 witness: the group starting at marker `2）` is materialized with
`w:start = 2`. -/
theorem C3_start_ordinal_clamped_witness :
    (convMidStart.trace.map (fun t => t.1.map GItem.ordinal) = [[2, 3]]) ∧
    ∃ c ∈ convMidStart.doc,
      c.tag = "w:abstractNum" ∧ c.absId = some 1 ∧ c.fmt = some "rparen" ∧
        c.start = some (max 1 2) := by
  refine ⟨by decide, ?_⟩
  exact C3_start_ordinal_clamped [] [mkPara "2）乙方义务", mkPara "3）丙方义务"]
    (fun _ => "body") is_list_paragraph is_effectively_blank_paragraph 1
    _ 1 ⟨0, "rparen", 2, 2⟩ [⟨1, "rparen", 3, 2⟩] (by decide) rfl

/-! ## Lemmas for the numbering binding (C4) -/

theorem removeFirst_no_numPr :
    ∀ (l : List PElem), l.countP PElem.isNumPr ≤ 1 →
      ∀ e ∈ removeFirstNumPr l, e.isNumPr = false := by
  intro l
  induction l with
  | nil => intro _ e he; cases he
  | cons a rest ih =>
    intro h e he
    unfold removeFirstNumPr at he
    by_cases ha : a.isNumPr
    · rw [if_pos ha] at he
      rw [List.countP_cons_of_pos _ _ ha] at h
      have hz : rest.countP PElem.isNumPr = 0 := by omega
      have := List.countP_eq_zero.mp hz e he
      simpa using this
    · rw [if_neg ha] at he
      rcases List.mem_cons.mp he with rfl | he'
      · simpa using ha
      · apply ih _ e he'
        rwa [List.countP_cons_of_neg _ _ (by simpa using ha)] at h

theorem removeFirst_append_numPr :
    ∀ (l : List PElem) (i : Nat) (n : Int), (∀ e ∈ l, e.isNumPr = false) →
      removeFirstNumPr (l ++ [PElem.numPr i n]) = l := by
  intro l
  induction l with
  | nil => intro i n _; simp [removeFirstNumPr, PElem.isNumPr]
  | cons a rest ih =>
    intro i n h
    have ha : a.isNumPr = false := h a (List.mem_cons_self _ _)
    simp only [List.cons_append]
    unfold removeFirstNumPr
    rw [if_neg (by simp [ha])]
    rw [ih i n (fun e he => h e (List.mem_cons_of_mem _ he))]

/-! ## Claim C4 — idempotence of the numbering binding -/

/-- C4: on a schema-conformant paragraph (at most one existing `w:numPr`
child, matching the data model's optional native numbering reference),
binding a numbering id twice equals binding it once, and either way the
paragraph ends up with exactly one `w:numPr`, carrying the requested
level and id: the pre-existing binding is replaced, never duplicated. -/
theorem C4_apply_numpr_idempotent :
    ∀ (p : Para) (numId : Int) (ilvl : Nat),
      p.pPr.countP PElem.isNumPr ≤ 1 →
      apply_numpr (apply_numpr p numId ilvl) numId ilvl = apply_numpr p numId ilvl ∧
      (apply_numpr p numId ilvl).pPr.filter PElem.isNumPr = [PElem.numPr ilvl numId] ∧
      (apply_numpr (apply_numpr p numId ilvl) numId ilvl).pPr.filter PElem.isNumPr =
        [PElem.numPr ilvl numId] := by
  intro p numId ilvl h
  have hno : ∀ e ∈ removeFirstNumPr p.pPr, e.isNumPr = false := removeFirst_no_numPr _ h
  have key : apply_numpr (apply_numpr p numId ilvl) numId ilvl = apply_numpr p numId ilvl := by
    unfold apply_numpr
    simp only [Para.mk.injEq, and_true, true_and]
    rw [removeFirst_append_numPr _ _ _ hno]
  have once : (apply_numpr p numId ilvl).pPr.filter PElem.isNumPr = [PElem.numPr ilvl numId] := by
    unfold apply_numpr
    rw [List.filter_append]
    rw [List.filter_eq_nil_iff.mpr (by intro e he; simp [hno e he])]
    simp [PElem.isNumPr]
  exact ⟨key, once, by rw [key]; exact once⟩

/-- C4 witness: a paragraph with an indentation property and one old
binding, rebound twice to id 7. -/
theorem C4_apply_numpr_idempotent_witness :
    (Para.mk [⟨cs "条款", 0⟩] (cs "Normal") [PElem.other "w:ind", PElem.numPr 0 5] 0).pPr.countP
        PElem.isNumPr ≤ 1 ∧
    (apply_numpr (apply_numpr
        (Para.mk [⟨cs "条款", 0⟩] (cs "Normal") [PElem.other "w:ind", PElem.numPr 0 5] 0) 7 0)
        7 0).pPr.filter PElem.isNumPr = [PElem.numPr 0 7] :=
  ⟨by decide,
    (C4_apply_numpr_idempotent
      (Para.mk [⟨cs "条款", 0⟩] (cs "Normal") [PElem.other "w:ind", PElem.numPr 0 5] 0)
      7 0 (by decide)).2.2⟩

/-! ## Lemmas for prefix stripping (C5) -/

theorem drop_append_ge {α : Type _} (l1 l2 : List α) (n : Nat) (h : l1.length ≤ n) :
    (l1 ++ l2).drop n = l2.drop (n - l1.length) := by
  have hn : n = l1.length + (n - l1.length) := by omega
  rw [hn, List.drop_append]
  congr 1
  omega

/-- Distributing the prefix removal across runs drops exactly the prefix
from the concatenated text. -/
theorem stripRuns_concat :
    ∀ (runs : List Run) (n : Nat),
      ((stripRunsAux runs n).map Run.text).flatten = ((runs.map Run.text).flatten).drop n := by
  intro runs
  induction runs with
  | nil => intro n; simp [stripRunsAux]
  | cons r rest ih =>
    intro n
    unfold stripRunsAux
    by_cases h0 : n = 0
    · subst h0; simp
    · rw [if_neg h0]
      by_cases hle : r.text.length ≤ n
      · rw [if_pos hle]
        simp only [List.map_cons, List.flatten_cons]
        rw [ih (n - r.text.length), drop_append_ge _ _ _ hle]
        simp
      · rw [if_neg hle]
        simp only [List.map_cons, List.flatten_cons]
        rw [List.drop_append_of_le_length (by omega)]

theorem lstrip_append_of_nonspace :
    ∀ (l1 l2 : List Char), l1.any (fun c => !isSpacePy c) = true →
      lstripPy (l1 ++ l2) = lstripPy l1 ++ l2 := by
  intro l1
  induction l1 with
  | nil => intro l2 h; cases h
  | cons c l' ih =>
    intro l2 h
    by_cases hc : isSpacePy c
    · have h' : l'.any (fun c => !isSpacePy c) = true := by
        simpa [hc] using h
      simp only [List.cons_append, lstripPy, List.dropWhile_cons, hc, if_true]
      exact ih l2 h'
    · simp [lstripPy, List.dropWhile_cons, hc]

theorem lstripFirst_concat :
    ∀ (runs : List Run),
      (∀ t ∈ firstNonemptyText runs, t.any (fun c => !isSpacePy c) = true) →
      ((lstripFirstRun runs).map Run.text).flatten = lstripPy ((runs.map Run.text).flatten) := by
  intro runs
  induction runs with
  | nil => intro _; simp [lstripFirstRun, lstripPy]
  | cons r rest ih =>
    intro H
    unfold lstripFirstRun
    by_cases hre : r.text.isEmpty
    · rw [if_pos hre]
      have hrt : r.text = [] := List.isEmpty_iff.mp hre
      simp only [List.map_cons, List.flatten_cons, hrt, List.nil_append]
      apply ih
      intro t ht
      apply H
      have : firstNonemptyText (r :: rest) = firstNonemptyText rest := by
        unfold firstNonemptyText
        rw [List.find?_cons_of_neg _ (by simp [hre])]
      rwa [this]
    · rw [if_neg hre]
      have hf : firstNonemptyText (r :: rest) = some r.text := by
        unfold firstNonemptyText
        rw [List.find?_cons_of_pos _ (by simp [hre])]
        rfl
      have hany := H r.text (by rw [hf]; rfl)
      simp only [List.map_cons, List.flatten_cons]
      rw [lstrip_append_of_nonspace _ _ hany]

/-! ## Claim C5 — the amended round-trip statement -/

/-- C5 as the code behaves: distributing the strip across runs removes
exactly `prefix_length` code points from the concatenated text, and —
whenever the remainder's first non-empty run contains a non-whitespace
character (so its leading whitespace does not spill into later runs) —
the final run text equals the original text with the prefix dropped and
then its entire leading whitespace removed (possibly more than one
space). -/
theorem C5_strip_roundtrip :
    ∀ (p : Para) (n : Nat),
      ((stripRunsAux p.runs n).map Run.text).flatten = p.text.drop n ∧
      ((∀ t ∈ firstNonemptyText (stripRunsAux p.runs n),
          t.any (fun c => !isSpacePy c) = true) →
        Para.text ( strip_list_text_prefix p n) = lstripPy (p.text.drop n)) := by
  intro p n
  refine ⟨stripRuns_concat p.runs n, fun H => ?_⟩
  show ((lstripFirstRun (stripRunsAux p.runs n)).map Run.text).flatten = _
  rw [lstripFirst_concat _ H, stripRuns_concat]
  rfl

/-- C5 witness: stripping the detected 3-codepoint marker of
`1) 第一项`. -/
theorem C5_strip_roundtrip_witness :
    (∀ t ∈ firstNonemptyText (stripRunsAux (mkPara "1) 第一项").runs 3),
        t.any (fun c => !isSpacePy c) = true) ∧
    Para.text ( strip_list_text_prefix (mkPara "1) 第一项") 3) =
      lstripPy ((mkPara "1) 第一项").text.drop 3) :=
  ⟨by decide, (C5_strip_roundtrip (mkPara "1) 第一项") 3).2 (by decide)⟩

/-! ## Lemmas on label dictionaries and the router -/

theorem dget_aux :
    ∀ (l : List Block) (f : Nat → String) (k : Nat) (acc : Option String),
      (l.map fun b => (b.blockId, f b.blockId)).foldl
          (fun a e => if e.1 = k then some e.2 else a) acc =
        if ∃ b ∈ l, b.blockId = k then some (f k) else acc := by
  intro l f k
  induction l with
  | nil => intro acc; simp
  | cons b bs ih =>
    intro acc
    simp only [List.map_cons, List.foldl_cons]
    rw [ih]
    by_cases hb : b.blockId = k
    · have h1 : (if b.blockId = k then some (f b.blockId) else acc) = some (f k) := by
        rw [if_pos hb, hb]
      rw [h1]
      by_cases hex : ∃ x ∈ bs, x.blockId = k
      · rw [if_pos hex, if_pos ⟨b, List.mem_cons_self _ _, hb⟩]
      · rw [if_neg hex, if_pos ⟨b, List.mem_cons_self _ _, hb⟩]
    · have h1 : (if b.blockId = k then some (f b.blockId) else acc) = acc := if_neg hb
      rw [h1]
      by_cases hex : ∃ x ∈ bs, x.blockId = k
      · rw [if_pos hex,
          if_pos (by obtain ⟨x, hx, hxk⟩ := hex; exact ⟨x, List.mem_cons_of_mem _ hx, hxk⟩)]
      · rw [if_neg hex, if_neg ?_]
        rintro ⟨x, hx, hxk⟩
        rcases List.mem_cons.mp hx with rfl | hx'
        · exact hb hxk
        · exact hex ⟨x, hx', hxk⟩

/-- Looking a block's id up in a dict keyed by the blocks themselves. -/
theorem dget_map_key_of_mem {blocks : List Block} {k : Nat} (f : Nat → String)
    (h : ∃ b ∈ blocks, b.blockId = k) :
    dget (blocks.map fun b => (b.blockId, f b.blockId)) k = some (f k) := by
  unfold dget
  rw [dget_aux, if_pos h]

/-- Looking a block's id up in the router's rule-default dict. -/
theorem dget_base (blocks : List Block) (rl : LabelDict) {k : Nat}
    (h : ∃ b ∈ blocks, b.blockId = k) :
    dget (blocks.map fun b => (b.blockId, (dget rl b.blockId).getD "body")) k =
      some ((dget rl k).getD "body") := by
  have h2 := dget_aux blocks (fun k => (dget rl k).getD "body") k none
  simp only at h2
  rw [if_pos h] at h2
  exact h2

theorem dget_map_mem :
    ∀ (blocks : List Block) (F : Block → String) (k : Nat),
      (∃ b ∈ blocks, b.blockId = k) →
      ∃ b ∈ blocks, b.blockId = k ∧
        dget (blocks.map fun b => (b.blockId, F b)) k = some (F b) := by
  intro blocks F k
  induction blocks with
  | nil => rintro ⟨b, hb, _⟩; cases hb
  | cons b bs ih =>
    intro hex
    by_cases hbs : ∃ x ∈ bs, x.blockId = k
    · obtain ⟨x, hx, hxk, hget⟩ := ih hbs
      refine ⟨x, List.mem_cons_of_mem _ hx, hxk, ?_⟩
      -- the fold over the tail overrides whatever the head wrote
      unfold dget at hget ⊢
      simp only [List.map_cons, List.foldl_cons]
      -- generalized accumulator irrelevance when the tail defines the key
      have hk : ∀ acc : Option String,
          (bs.map fun b => (b.blockId, F b)).foldl
              (fun a e => if e.1 = k then some e.2 else a) acc = some (F x) → True := fun _ _ => trivial
      clear hk
      -- redo via a helper equality: the tail fold is accumulator-independent here
      have tail_indep : ∀ acc1 acc2 : Option String,
          (∃ y ∈ bs, y.blockId = k) →
          (bs.map fun b => (b.blockId, F b)).foldl
              (fun a e => if e.1 = k then some e.2 else a) acc1 =
            (bs.map fun b => (b.blockId, F b)).foldl
              (fun a e => if e.1 = k then some e.2 else a) acc2 := by
        clear hget hxk hx x hbs hex ih
        induction bs with
        | nil => rintro acc1 acc2 ⟨y, hy, _⟩; cases hy
        | cons c cs ihc =>
          intro acc1 acc2 hy
          obtain ⟨y, hy, hyk⟩ := hy
          rcases List.mem_cons.mp hy with rfl | hy'
          · simp only [List.map_cons, List.foldl_cons, hyk, if_pos]
          · simp only [List.map_cons, List.foldl_cons]
            exact ihc _ _ ⟨y, hy', hyk⟩
      rw [tail_indep _ _ hbs]
      exact hget
    · -- the key can only be the head's
      obtain ⟨y, hy, hyk⟩ := hex
      rcases List.mem_cons.mp hy with rfl | hy'
      · refine ⟨y, List.mem_cons_self _ _, hyk, ?_⟩
        unfold dget
        simp only [List.map_cons, List.foldl_cons, hyk, if_pos]
        -- the tail never touches the key, so the accumulator survives
        have : ∀ (cs : List Block) (acc : Option String), (¬ ∃ z ∈ cs, z.blockId = k) →
            (cs.map fun b => (b.blockId, F b)).foldl
                (fun a e => if e.1 = k then some e.2 else a) acc = acc := by
          intro cs
          induction cs with
          | nil => intro acc _; rfl
          | cons c cs' ihc =>
            intro acc hn
            simp only [List.map_cons, List.foldl_cons]
            rw [if_neg (fun hck => hn ⟨c, List.mem_cons_self _ _, hck⟩)]
            exact ihc acc (fun ⟨z, hz, hzk⟩ => hn ⟨z, List.mem_cons_of_mem _ hz, hzk⟩)
        rw [this bs _ hbs]
      · exact absurd ⟨y, hy', hyk⟩ hbs

theorem dget_some_mem :
    ∀ (d : LabelDict) (k : Nat) (v : String), dget d k = some v → (k, v) ∈ d := by
  have gen : ∀ (d : LabelDict) (k : Nat) (v : String) (acc : Option String),
      d.foldl (fun a e => if e.1 = k then some e.2 else a) acc = some v →
      (k, v) ∈ d ∨ acc = some v := by
    intro d k v
    induction d with
    | nil => intro acc h; exact Or.inr h
    | cons e rest ih =>
      intro acc h
      simp only [List.foldl_cons] at h
      rcases ih _ h with hmem | hacc
      · exact Or.inl (List.mem_cons_of_mem _ hmem)
      · by_cases he : e.1 = k
        · rw [if_pos he] at hacc
          injection hacc with hv
          left
          have : e = (k, v) := Prod.ext he hv
          rw [← this]
          exact List.mem_cons_self _ _
        · rw [if_neg he] at hacc
          exact Or.inr hacc
  intro d k v h
  rcases gen d k v none h with hmem | hacc
  · exact hmem
  · cases hacc

theorem hasPre_refl : ∀ (l : List Char), hasPre l l = true
  | [] => rfl
  | c :: rest => by simp [hasPre, hasPre_refl rest]

/-- A string contains its own suffix. -/
theorem containsSub_append_right :
    ∀ (a b : List Char), containsSub (a ++ b) b = true := by
  intro a
  induction a with
  | nil =>
    intro b
    cases b with
    | nil => rfl
    | cons c r => simp [containsSub, hasPre_refl]
  | cons x a' ih =>
    intro b
    simp [containsSub, ih b]

theorem lookup_mem {l : List (String × String)} {k v : String}
    (h : l.lookup k = some v) : (k, v) ∈ l := by
  induction l with
  | nil => cases h
  | cons p rest ih =>
    obtain ⟨k', v'⟩ := p
    cases hk : k == k'
    · simp only [List.lookup, hk] at h
      exact List.mem_cons_of_mem _ (ih h)
    · simp only [List.lookup, hk] at h
      injection h with hv
      subst hv
      cases eq_of_beq hk
      exact List.mem_cons_self _ _

/-- The normalization table only emits internal role names. -/
theorem normalize_mem (role : String) :
    _normalize_role role ∈
      ["h1", "h2", "h3", "body", "list_item", "caption", "abstract", "keyword",
        "reference", "footer", "unknown"] := by
  unfold _normalize_role
  rcases h : llmToInternalRole.lookup role with _ | v
  · simp
  · have hv : (role, v) ∈ llmToInternalRole := lookup_mem h
    simp only [Option.getD_some]
    simp only [llmToInternalRole, List.mem_cons, List.not_mem_nil, or_false] at hv
    rcases hv with h1 | h1 | h1 | h1 | h1 | h1 | h1 | h1 | h1 | h1 | h1 | h1 <;>
      (injection h1 with _ h2; subst h2; simp)

theorem covered_of_normalize (s : String) (h : _normalize_role s ≠ "unknown") :
    coveredLabel (some (_normalize_role s)) = true := by
  have hm := normalize_mem s
  simp only [List.mem_cons, List.not_mem_nil, or_false] at hm
  rcases hm with h1 | h1 | h1 | h1 | h1 | h1 | h1 | h1 | h1 | h1 | h1 <;>
    simp [coveredLabel, h1] at h ⊢


/-- `rule_based_labels` assigns a label to every block, so the coverage
hypothesis of the no-trigger equivalence holds for every rule label set
the pipeline actually produces. -/
theorem rule_based_labels_total (blocks : List Block) (paras : List Para) :
    ∀ b ∈ blocks, (dget (rule_based_labels blocks paras) b.blockId).isSome := by
  intro b hb
  obtain ⟨b2, _, _, hget⟩ := dget_map_mem blocks
    (fun b => match paras.get? b.paragraphIndex with
      | some p => detect_role p
      | none => if (stripPy b.text.data).isEmpty then "blank" else "body")
    b.blockId ⟨b, hb, rfl⟩
  unfold rule_based_labels
  rw [hget]
  rfl

/-- Whatever the trigger and call outcome, the hybrid result's label dict
is keyed by the blocks, and each value is either the block's rule default
or a normalized external label. -/
theorem hybrid_labels_shape (blocks : List Block) (rl : LabelDict)
    (review : Except String DocumentReview) :
    ∃ F : Block → String,
      (hybridRoute blocks rl review).labels = blocks.map (fun b => (b.blockId, F b)) ∧
      ∀ b, F b = (dget rl b.blockId).getD "body" ∨
        ∃ rp ∈ reviewParasOf review, F b = _normalize_role rp.paragraphType := by
  unfold hybridRoute
  by_cases hempty : (_compute_hybrid_triggers blocks rl).triggeredIndices.isEmpty
  · rw [if_pos hempty]
    exact ⟨fun b => (dget rl b.blockId).getD "body", rfl, fun b => Or.inl rfl⟩
  · rw [if_neg hempty]
    cases review with
    | error e =>
      exact ⟨fun b => (dget rl b.blockId).getD "body", rfl, fun b => Or.inl rfl⟩
    | ok r =>
      refine ⟨fun b =>
        if !(_compute_hybrid_triggers blocks rl).triggeredIndices.contains b.paragraphIndex then
          (dget rl b.blockId).getD "body"
        else if ((_structure_low_confidence r).foldl addIdx []).contains b.paragraphIndex then
          (dget rl b.blockId).getD "body"
        else
          match dget (_structure_to_labels r) b.paragraphIndex with
          | some lab => lab
          | none => (dget rl b.blockId).getD "body", rfl, ?_⟩
      intro b
      by_cases h1 : b.paragraphIndex ∈ (_compute_hybrid_triggers blocks rl).triggeredIndices
      · by_cases h2 : b.paragraphIndex ∈ (_structure_low_confidence r).foldl addIdx []
        · left; simp [h1, h2]
        · rcases hll : dget (_structure_to_labels r) b.paragraphIndex with _ | lab
          · left; simp [h1, h2, hll]
          · right
            have hmem := dget_some_mem _ _ _ hll
            simp only [_structure_to_labels, List.mem_map] at hmem
            obtain ⟨rp, hrp, heq⟩ := hmem
            refine ⟨rp, hrp, ?_⟩
            have hlab : lab = _normalize_role rp.paragraphType :=
              (congrArg Prod.snd heq).symm
            simp [h1, h2, hll, hlab]
      · left; simp [h1]

/-! ## Claim C7 — hybrid equals rule-only when no trigger fires -/

/-- C7: when no hybrid trigger fires, the router's per-block labels are
exactly the rule labels (for every rule label set covering the blocks,
as `rule_based_labels` always produces), the recorded trigger metadata
says the external classifier was not called, and the whole result is
independent of the external call's outcome. -/
theorem C7_hybrid_rule_equivalence :
    ∀ (blocks : List Block) (rl : LabelDict) (r1 r2 : Except String DocumentReview),
      (_compute_hybrid_triggers blocks rl).triggeredIndices = [] →
      (∀ b ∈ blocks, (dget rl b.blockId).isSome) →
      (∀ b ∈ blocks,
          dget (hybridRoute blocks rl r1).labels b.blockId =
            dget (route_rule rl).labels b.blockId) ∧
      (hybridRoute blocks rl r1).triggers.map HybridTriggersRecord.llmCalled = some false ∧
      hybridRoute blocks rl r1 = hybridRoute blocks rl r2 := by
  intro blocks rl r1 r2 htrig hcov
  have hempty : (_compute_hybrid_triggers blocks rl).triggeredIndices.isEmpty = true := by
    rw [htrig]; rfl
  have hout : ∀ (r : Except String DocumentReview),
      hybridRoute blocks rl r =
        ⟨blocks.map fun b => (b.blockId, (dget rl b.blockId).getD "body"), "hybrid", [],
          some ⟨!(_compute_hybrid_triggers blocks rl).triggeredIndices.isEmpty,
            (_compute_hybrid_triggers blocks rl).reasons,
            (_compute_hybrid_triggers blocks rl).triggeredIndices.length, blocks.length,
            false, none⟩⟩ := by
    intro r
    unfold hybridRoute
    rw [if_pos hempty]
  refine ⟨?_, ?_, ?_⟩
  · intro b hb
    rw [hout r1]
    show dget (blocks.map fun b => (b.blockId, (dget rl b.blockId).getD "body")) b.blockId =
      dget rl b.blockId
    rw [dget_base blocks rl ⟨b, hb, rfl⟩]
    rcases ho : dget rl b.blockId with _ | v
    · exact absurd (ho ▸ hcov b hb) (by simp)
    · simp
  · rw [hout r1]
    rfl
  · rw [hout r1, hout r2]

/-- C7 witness: one short body block, an erroring call versus a
successful one. -/
theorem C7_hybrid_rule_equivalence_witness :
    ((_compute_hybrid_triggers quietBlocks quietRl).triggeredIndices = [] ∧
      (∀ b ∈ quietBlocks, (dget quietRl b.blockId).isSome)) ∧
    (∀ b ∈ quietBlocks,
        dget (hybridRoute quietBlocks quietRl (Except.error "x")).labels b.blockId =
          dget (route_rule quietRl).labels b.blockId) ∧
    hybridRoute quietBlocks quietRl (Except.error "x") =
      hybridRoute quietBlocks quietRl (Except.ok reviewBody) := by
  refine ⟨⟨by decide, by decide⟩, ?_, ?_⟩
  · exact (C7_hybrid_rule_equivalence quietBlocks quietRl (Except.error "x")
      (Except.ok reviewBody) (by decide) (by decide)).1
  · exact (C7_hybrid_rule_equivalence quietBlocks quietRl (Except.error "x")
      (Except.ok reviewBody) (by decide) (by decide)).2.2

/-! ## Claim C8 — the amended failure-handling statement -/

/-- C8 as the code behaves: when a trigger fired and the external call
fails, every block keeps its rule label, the single appended warning
contains the failure message, the trigger record says the call was
attempted, and the result's source field reads `"hybrid"` (the label
values are the rule labels, but the source tag is not `"rule"`); the
reconciliation is a total function, so no exception escapes it. -/
theorem C8_hybrid_failure_degrades :
    ∀ (blocks : List Block) (rl : LabelDict) (e : String),
      (_compute_hybrid_triggers blocks rl).triggeredIndices ≠ [] →
      (∀ b ∈ blocks,
          dget (hybridRoute blocks rl (Except.error e)).labels b.blockId =
            some ((dget rl b.blockId).getD "body")) ∧
      (hybridRoute blocks rl (Except.error e)).warnings = [hybridFailWarning e] ∧
      containsSub (hybridFailWarning e).data e.data = true ∧
      (hybridRoute blocks rl (Except.error e)).source = "hybrid" ∧
      (hybridRoute blocks rl (Except.error e)).triggers.map
          HybridTriggersRecord.llmCalled = some true := by
  intro blocks rl e htrig
  have hne : ¬ (_compute_hybrid_triggers blocks rl).triggeredIndices.isEmpty = true := by
    intro h
    exact htrig (List.isEmpty_iff.mp h)
  have hout : hybridRoute blocks rl (Except.error e) =
      ⟨blocks.map fun b => (b.blockId, (dget rl b.blockId).getD "body"), "hybrid",
        [hybridFailWarning e],
        some ⟨!(_compute_hybrid_triggers blocks rl).triggeredIndices.isEmpty,
          (_compute_hybrid_triggers blocks rl).reasons,
          (_compute_hybrid_triggers blocks rl).triggeredIndices.length, blocks.length,
          true, some e⟩⟩ := by
    unfold hybridRoute
    rw [if_neg hne]
  refine ⟨?_, by rw [hout], ?_, by rw [hout], by rw [hout]; rfl⟩
  · intro b hb
    rw [hout]
    exact dget_base blocks rl ⟨b, hb, rfl⟩
  · have : hybridFailWarning e = "hybrid 模式 LLM 审阅失败，已保留规则结果: " ++ e := rfl
    rw [this, String.data_append]
    exact containsSub_append_right _ _

/-- C8 witness: the `{0: unknown}` scenario with a failing call. -/
theorem C8_hybrid_failure_degrades_witness :
    ((_compute_hybrid_triggers unknownBlocks unknownRl).triggeredIndices ≠ []) ∧
    (∀ b ∈ unknownBlocks,
        dget (hybridRoute unknownBlocks unknownRl (Except.error "down")).labels b.blockId =
          some ((dget unknownRl b.blockId).getD "body")) ∧
    (hybridRoute unknownBlocks unknownRl (Except.error "down")).warnings =
      [hybridFailWarning "down"] := by
  refine ⟨by decide, ?_, ?_⟩
  · exact (C8_hybrid_failure_degrades unknownBlocks unknownRl "down" (by decide)).1
  · exact (C8_hybrid_failure_degrades unknownBlocks unknownRl "down" (by decide)).2.1

/-! ## Claim C9 — the amended coverage monotonicity -/

/-- C9 as the code behaves: hybrid coverage is at least rule-only
coverage whenever no entry of the external response normalizes to
`unknown` (a confident external `unknown` on a covered paragraph is the
one way hybrid coverage can drop, as the counterexample shows). -/
theorem C9_coverage_monotone :
    ∀ (blocks : List Block) (rl : LabelDict) (review : Except String DocumentReview),
      (∀ rp ∈ reviewParasOf review, _normalize_role rp.paragraphType ≠ "unknown") →
      coverageRate (dget (route_rule rl).labels) blocks ≤
        coverageRate (dget (hybridRoute blocks rl review).labels) blocks := by
  intro blocks rl review H
  obtain ⟨F, hship, hF⟩ := hybrid_labels_shape blocks rl review
  have key : ∀ b ∈ blocks,
      coveredLabel (dget (route_rule rl).labels b.blockId) = true →
      coveredLabel (dget (hybridRoute blocks rl review).labels b.blockId) = true := by
    intro b hb hcovb
    obtain ⟨b2, hb2, hb2k, hget⟩ := dget_map_mem blocks F b.blockId ⟨b, hb, rfl⟩
    rw [hship, hget]
    rcases hF b2 with hrule | ⟨rp, hrp, hllm⟩
    · rw [hrule, hb2k]
      rcases ho : dget rl b.blockId with _ | v
      · simp [coveredLabel]
      · have : dget (route_rule rl).labels b.blockId = some v := ho
        rw [this] at hcovb
        simpa [Option.getD_some, coveredLabel] using hcovb
    · rw [hllm]
      exact covered_of_normalize _ (H rp hrp)
  have hcount := List.countP_mono_left key
  unfold coverageRate
  by_cases hz : blocks.length = 0
  · rw [if_pos hz, if_pos hz]
  · rw [if_neg hz, if_neg hz]
    have hlen : (0 : ℚ) < blocks.length := by
      exact_mod_cast Nat.pos_of_ne_zero hz
    exact (div_le_div_iff_of_pos_right hlen).mpr (by exact_mod_cast hcount)

/-- C9 witness: the same triggered document, but the external classifier
confidently answers `body`. -/
theorem C9_coverage_monotone_witness :
    (∀ rp ∈ reviewParasOf (Except.ok reviewBody), _normalize_role rp.paragraphType ≠ "unknown") ∧
    coverageRate (dget (route_rule longHeadingRl).labels) longHeadingBlocks ≤
      coverageRate (dget (hybridRoute longHeadingBlocks longHeadingRl
        (Except.ok reviewBody)).labels) longHeadingBlocks :=
  ⟨by decide, C9_coverage_monotone longHeadingBlocks longHeadingRl (Except.ok reviewBody)
    (by decide)⟩

/-! ## Lemmas on the document-flow traversal (C10) -/

theorem walkCells_nil (seen : List Nat) : walkCells [] seen = ([], seen) := by
  simp [walkCells]

theorem walkCells_cons (tc : Nat) (items : List DNode) (rest : List (Nat × List DNode))
    (seen : List Nat) :
    walkCells ((tc, items) :: rest) seen =
      if seen.contains tc then walkCells rest seen
      else (walkNodes items ++ (walkCells rest (seen ++ [tc])).1,
        (walkCells rest (seen ++ [tc])).2) := by
  simp only [walkCells]

theorem dedupCells_cons (tc : Nat) (items : List DNode) (rest : List (Nat × List DNode))
    (seen : List Nat) :
    dedupCells ((tc, items) :: rest) seen =
      if seen.contains tc then dedupCells rest seen
      else (tc, items) :: dedupCells rest (seen ++ [tc]) := by
  simp only [dedupCells]

theorem walkRows_cons (row : List (Nat × List DNode)) (rest : List (List (Nat × List DNode)))
    (seen : List Nat) :
    walkRows (row :: rest) seen = (walkCells row seen).1 ++ walkRows rest (walkCells row seen).2 := by
  simp only [walkRows]

theorem walkNodes_cons_para (pid : Nat) (rest : List DNode) :
    walkNodes (DNode.para pid :: rest) = pid :: walkNodes rest := by
  simp only [walkNodes]

theorem walkNodes_cons_table (rows : List (List (Nat × List DNode))) (rest : List DNode) :
    walkNodes (DNode.table rows :: rest) = walkRows rows [] ++ walkNodes rest := by
  simp only [walkNodes]

theorem cellsParas_append (a b : List (Nat × List DNode)) :
    cellsParas (a ++ b) = cellsParas a ++ cellsParas b := by
  simp [cellsParas]

/-- The seen-set cell loop visits exactly the deduplicated cells, and
extends the seen set by their identities, in order. -/
theorem walkCells_spec :
    ∀ (cells : List (Nat × List DNode)) (seen : List Nat),
      walkCells cells seen =
        (cellsParas (dedupCells cells seen), seen ++ (dedupCells cells seen).map Prod.fst) := by
  intro cells
  induction cells with
  | nil => intro seen; simp [walkCells_nil, dedupCells, cellsParas]
  | cons c rest ih =>
    intro seen
    obtain ⟨tc, items⟩ := c
    by_cases h : seen.contains tc
    · rw [walkCells_cons, dedupCells_cons, if_pos h, if_pos h]
      exact ih seen
    · rw [walkCells_cons, dedupCells_cons, if_neg h, if_neg h]
      rw [ih (seen ++ [tc])]
      simp [cellsParas]

/-- Deduplication distributes over concatenation, threading the seen
identities. -/
theorem dedup_append :
    ∀ (a b : List (Nat × List DNode)) (seen : List Nat),
      dedupCells (a ++ b) seen =
        dedupCells a seen ++ dedupCells b (seen ++ (dedupCells a seen).map Prod.fst) := by
  intro a
  induction a with
  | nil => intro b seen; simp [dedupCells]
  | cons c rest ih =>
    intro b seen
    obtain ⟨tc, items⟩ := c
    by_cases h : seen.contains tc
    · simp only [List.cons_append]
      rw [dedupCells_cons, dedupCells_cons, if_pos h, if_pos h]
      exact ih b seen
    · simp only [List.cons_append]
      rw [dedupCells_cons, dedupCells_cons, if_neg h, if_neg h]
      rw [ih b (seen ++ [tc])]
      simp

/-- The per-table loop equals one visit per distinct cell, in
first-occurrence row-major order. -/
theorem walkRows_spec :
    ∀ (rows : List (List (Nat × List DNode))) (seen : List Nat),
      walkRows rows seen = cellsParas (dedupCells rows.flatten seen) := by
  intro rows
  induction rows with
  | nil => intro seen; simp [walkRows, dedupCells, cellsParas]
  | cons row rest ih =>
    intro seen
    rw [walkRows_cons, walkCells_spec row seen, ih,
      List.flatten_cons, dedup_append, cellsParas_append]

theorem walkNodes_append :
    ∀ (a b : List DNode), walkNodes (a ++ b) = walkNodes a ++ walkNodes b := by
  intro a b
  induction a with
  | nil => simp [walkNodes]
  | cons n rest ih =>
    cases n with
    | para pid =>
      rw [List.cons_append, walkNodes_cons_para, walkNodes_cons_para, ih]
      rfl
    | table rows =>
      rw [List.cons_append, walkNodes_cons_table, walkNodes_cons_table, ih,
        List.append_assoc]

/-! ## Claim C10 — traversal uniqueness -/

/-- C10: `iter_all_paragraphs` walks the document flow in order; every
table contributes exactly one visit per distinct underlying cell element
(first grid occurrence, row-major — a cell spanned by merged rows or
columns is visited once), at every nesting depth; hence, when the
distinct cells' contents are themselves duplicate-free (the underlying
tree property), the returned paragraph sequence has no duplicates. -/
theorem C10_traversal_unique :
    (∀ (pre post : List DNode) (rows : List (List (Nat × List DNode))),
        iter_all_paragraphs (pre ++ DNode.table rows :: post) =
          iter_all_paragraphs pre ++ cellsParas (dedupCells rows.flatten []) ++
            iter_all_paragraphs post) ∧
    (∀ (rows : List (List (Nat × List DNode))) (seen : List Nat),
        walkRows rows seen = cellsParas (dedupCells rows.flatten seen)) ∧
    (∀ (rows : List (List (Nat × List DNode))),
        (cellsParas (dedupCells rows.flatten [])).Nodup → (walkRows rows []).Nodup) := by
  refine ⟨?_, walkRows_spec, ?_⟩
  · intro pre post rows
    unfold iter_all_paragraphs
    rw [walkNodes_append, walkNodes_cons_table, walkRows_spec rows []]
    rw [List.append_assoc]
  · intro rows h
    rw [walkRows_spec rows []]
    exact h

/-- C10 witness: the merged-cell table; its canonical cell contents are
duplicate-free, so the traversal is too, and it lists each paragraph
once in flow order. -/
theorem C10_traversal_unique_witness :
    (cellsParas (dedupCells mergedRows.flatten [])).Nodup ∧
    (walkRows mergedRows []).Nodup ∧
    iter_all_paragraphs mergedDoc = [1, 2, 3, 4, 5] := by
  have h1 : cellsParas (dedupCells mergedRows.flatten []) = [2, 3, 4] := by
    simp [mergedRows, dedupCells, cellsParas, walkNodes, walkRows, walkCells]
  refine ⟨by rw [h1]; decide, C10_traversal_unique.2.2 mergedRows (by rw [h1]; decide), ?_⟩
  simp [iter_all_paragraphs, mergedDoc, mergedRows, walkNodes, walkRows, walkCells]

end MyAgent
